import Mathlib

/-!
Nachos thread scheduler (code/threads/scheduler.cc, code/threads/kernel.cc).

A shallow embedding of the dispatch core: the ready list and its ordering
policies, the sleeping list and the tick driver, the dispatcher `Run` and
the deferred destruction of a finished thread.

Conventions of the embedding.

* A `Thread *` is a value of `Thread` (an identity and its priority); a
  pointer that may be `NULL` is an `Option Thread`.
* The globals reached through `kernel->` (interrupt level, current thread,
  the scheduler) and the thread objects' `status` fields form one record,
  `Kernel`, passed explicitly.
* A routine returns an `Outcome`: it completes, or an `ASSERT` aborts the
  kernel, or an invalid pointer is dereferenced; the two latter carry the
  state reached at that point.
* The tick counter of a sleeper is a 32-bit `int`: an integer between
  `INT_MIN` and `INT_MAX`, whose decrement at `INT_MIN` wraps to `INT_MAX`.
* The generic containers of `lib/list.h` and the classes `Thread` and
  `SleepingThread` are not part of the sources at hand; their operations are
  modelled from the specification and marked as such.
-/

set_option linter.dupNamespace false

namespace Nachos

/-! ## Data model -/

/-- The interrupt level of the simulated processor. -/
inductive IntStatus where
  | IntOff
  | IntOn
  deriving DecidableEq, Repr

/-- Modelled from the spec: the enumeration ThreadStatus (thread.h is
missing); the spec lists the four statuses READY, RUNNING, BLOCKED and
FINISHING. -/
inductive ThreadStatus where
  | READY
  | RUNNING
  | BLOCKED
  | FINISHING
  deriving DecidableEq, Repr

/-- The scheduling policies named in kernel.cc and scheduler.cc
(scheduler.h, which declares the enumeration, is missing). -/
inductive SchedulerType where
  | RR
  | SJF
  | Priority
  | FCFS
  deriving DecidableEq, Repr

/-- A thread object as the scheduler sees it: its identity and the
priority read by `getPriority`. The status field lives in `Kernel.status`. -/
structure Thread where
  id : Nat
  priority : Int
  deriving DecidableEq, Repr

/-- Getter used by `Priority_cmp`. -/
def Thread.getPriority (t : Thread) : Int := t.priority

/-- Modelled from the spec: the class SleepingThread (scheduler.h is
missing), a SleepEntry pairing a thread with its remaining ticks. -/
structure SleepingThread where
  thread : Thread
  sleepTime : Int
  deriving DecidableEq, Repr

/-- Getter of the sleeper's thread. -/
def SleepingThread.getThread (st : SleepingThread) : Thread := st.thread

/-- Getter of the remaining ticks. -/
def SleepingThread.getSleepTime (st : SleepingThread) : Int := st.sleepTime

/-- The smallest value of the 32-bit `int` that `GoSleep` takes as its
sleep time. -/
def INT_MIN : Int := -2147483648

/-- The largest value of a 32-bit `int`. -/
def INT_MAX : Int := 2147483647

/-- Modelled from the spec: SleepingThread::decreaseSleepTime (missing),
"decrements remainingTicks of every SleepEntry by one". The counter is the
`int` handed to `GoSleep`: one less, and on the target machine the
decrement of `INT_MIN` wraps around to `INT_MAX`. -/
def SleepingThread.decreaseSleepTime (st : SleepingThread) : SleepingThread :=
  { st with sleepTime := if st.sleepTime = INT_MIN then INT_MAX else st.sleepTime - 1 }

/-! ## The list library -/

/-- Modelled from the spec: List<T>::Append of lib/list.h (missing), "strict
first-in-first-out insertion order; no reordering on insert": the item goes
to the tail. -/
def List_Append {α : Type} (item : α) (xs : List α) : List α :=
  xs ++ [item]

/-- Modelled from the spec: SortedList<T>::Insert of lib/list.h (missing).
The list is kept ascending under the comparator and insertion is stable: the
item is placed in front of the first element it compares below (`compare`
negative) and at the tail when there is none, so that a comparator that
never answers "below" degenerates to "insert at tail". -/
def SortedList_Insert {α : Type} (compare : α → α → Int) (item : α) : List α → List α
  | [] => [item]
  | x :: xs =>
    if compare item x < 0 then item :: x :: xs
    else x :: SortedList_Insert compare item xs

/-! ## Comparators (scheduler.cc, lines 37-47) -/

/-- Comparator of the FCFS ready list: it answers 1 whatever the arguments. -/
def FCFS_cmp (_a _b : Thread) : Int := 1

/-- Comparator of the Priority ready list. -/
def Priority_cmp (a b : Thread) : Int :=
  if a.getPriority < b.getPriority then -1 else 1

/-- Comparator of the sleeping list. -/
def SleepTime_cmp (x y : SleepingThread) : Int :=
  if x.getSleepTime < y.getSleepTime then -1 else 1

/-! ## Scheduler and kernel state -/

/-- The list object behind `readyList`. Its class decides what the virtual
`Append` does: `compare = none` stands for a plain `List<Thread *>`,
`compare = some c` for a `SortedList<Thread *>` constructed with `c`. -/
structure ReadyList where
  compare : Option (Thread → Thread → Int)
  items : List Thread

/-- The data members of class Scheduler. `readyList` is `none` while the
pointer has been given no list object. -/
structure Scheduler where
  schedulerType : SchedulerType
  readyList : Option ReadyList
  sleepingList : List SleepingThread
  toBeDestroyed : Option Thread
  AThreadWakeUp : Bool

/-- The kernel globals the scheduler reads and writes, together with the
part of the heap it touches: the `status` field of every thread object and
the threads deleted so far, oldest first. -/
structure Kernel where
  level : IntStatus
  currentThread : Option Thread
  status : Thread → ThreadStatus
  destroyed : List Thread
  scheduler : Scheduler

/-- How a routine ends: normally, by a failed `ASSERT` (the kernel aborts),
or by dereferencing a pointer that holds no object. The two abnormal endings
carry the state reached at that point. -/
inductive Outcome (α : Type) where
  | ok (val : α) (k : Kernel)
  | assertFailed (k : Kernel)
  | badPointer (k : Kernel)

/-- The kernel state an outcome leaves behind. -/
def Outcome.state {α : Type} : Outcome α → Kernel
  | .ok _ k => k
  | .assertFailed k => k
  | .badPointer k => k

/-- Whether the routine ran to completion. -/
def Outcome.isOk {α : Type} : Outcome α → Bool
  | .ok _ _ => true
  | _ => false

/-- Whether the routine was stopped by a failed assertion. -/
def Outcome.isAssertFailed {α : Type} : Outcome α → Bool
  | .assertFailed _ => true
  | _ => false

/-- The value returned by a routine that completed. -/
def Outcome.val? {α : Type} : Outcome α → Option α
  | .ok v _ => some v
  | _ => none

/-- Setter `Thread::setStatus`, acting on the heap of thread objects. -/
def Kernel.setStatus (k : Kernel) (t : Thread) (s : ThreadStatus) : Kernel :=
  { k with status := Function.update k.status t s }

/-- Setter `Interrupt::SetLevel`: installs the level and hands back the
previous one. -/
def Kernel.SetLevel (k : Kernel) (l : IntStatus) : IntStatus × Kernel :=
  (k.level, { k with level := l })

/-- The content of the ready list, empty when there is no list object. -/
def Kernel.readyItems (k : Kernel) : List Thread :=
  match k.scheduler.readyList with
  | some r => r.items
  | none => []

/-! ## Scheduler::Scheduler (scheduler.cc, lines 49-72) -/

/-- The constructor. The `switch` has a case for RR, FCFS and Priority only;
for SJF no branch runs and `readyList` is left without a list object. -/
def Scheduler.Scheduler (sType : SchedulerType) : Scheduler :=
  { schedulerType := sType
    sleepingList := []
    toBeDestroyed := none
    AThreadWakeUp := false
    readyList :=
      match sType with
      | .RR => some { compare := none, items := [] }
      | .FCFS => some { compare := some FCFS_cmp, items := [] }
      | .Priority => some { compare := some Priority_cmp, items := [] }
      | .SJF => none }

/-- The virtual call `readyList->Append(thread)`: a plain `List` appends at
the tail; a `SortedList` forwards `Append` to its sorted `Insert`. -/
def ReadyList.Append (r : ReadyList) (thread : Thread) : ReadyList :=
  match r.compare with
  | none => { r with items := List_Append thread r.items }
  | some c => { r with items := SortedList_Insert c thread r.items }

/-! ## Scheduler::ReadyToRun and Scheduler::FindNextToRun (lines 99-127) -/

/-- Mark a thread ready and put it on the ready list. -/
def Scheduler.ReadyToRun (k : Kernel) (thread : Thread) : Outcome Unit :=
  if k.level ≠ IntStatus.IntOff then .assertFailed k
  else
    let k1 := k.setStatus thread ThreadStatus.READY
    match k1.scheduler.readyList with
    | none => .badPointer k1
    | some r =>
      .ok () { k1 with scheduler := { k1.scheduler with readyList := some (r.Append thread) } }

/-- Remove and return the head of the ready list, `none` when it is empty. -/
def Scheduler.FindNextToRun (k : Kernel) : Outcome (Option Thread) :=
  if k.level ≠ IntStatus.IntOff then .assertFailed k
  else
    match k.scheduler.readyList with
    | none => .badPointer k
    | some r =>
      match r.items with
      | [] => .ok none k
      | x :: xs =>
        .ok (some x)
          { k with scheduler := { k.scheduler with readyList := some { r with items := xs } } }

/-! ## Scheduler::Run and Scheduler::CheckToBeDestroyed (lines 146-216) -/

/-- The part of `Run` that executes before `SWITCH` is entered. The
`USER_PROGRAM` block is compiled out in the threads build.
`Thread::CheckOverflow` (thread.cc, missing) inspects the machine stack only
and leaves the scheduler state alone; it dereferences `oldThread`. -/
def Scheduler.Run_toSwitch (k : Kernel) (nextThread : Option Thread) (finishing : Bool) :
    Outcome Unit :=
  let oldThread := k.currentThread
  if k.level ≠ IntStatus.IntOff then .assertFailed k
  else if finishing = true ∧ k.scheduler.toBeDestroyed ≠ none then .assertFailed k
  else
    let k1 : Kernel :=
      if finishing = true then
        { k with scheduler := { k.scheduler with toBeDestroyed := oldThread } }
      else k
    match oldThread with
    | none => .badPointer k1
    | some _ =>
      let k2 : Kernel := { k1 with currentThread := nextThread }
      match nextThread with
      | none => .badPointer k2
      | some nt => .ok () (k2.setStatus nt ThreadStatus.RUNNING)

/-- Delete the thread waiting in `toBeDestroyed`, if any, and clear the
slot. Modelled from the spec: the destructor of Thread (thread.cc is
missing) "destroys that thread"; the deleted thread is recorded in
`Kernel.destroyed`. -/
def Scheduler.CheckToBeDestroyed (k : Kernel) : Kernel :=
  match k.scheduler.toBeDestroyed with
  | some t =>
    { k with
      destroyed := k.destroyed ++ [t]
      scheduler := { k.scheduler with toBeDestroyed := none } }
  | none => k

/-- The part of `Run` that executes once `SWITCH` has returned, that is when
the thread that called `Run` has been chosen again. -/
def Scheduler.Run_resumed (k : Kernel) : Outcome Unit :=
  if k.level ≠ IntStatus.IntOff then .assertFailed k
  else .ok () (Scheduler.CheckToBeDestroyed k)

/-- The whole of `Run`. `SWITCH` is the opaque context switch: from the
caller's side it maps the state at the handoff to the state in which the
caller is resumed, after the other threads have run. -/
def Scheduler.Run (SWITCH : Kernel → Kernel) (k : Kernel) (nextThread : Option Thread)
    (finishing : Bool) : Outcome Unit :=
  match Scheduler.Run_toSwitch k nextThread finishing with
  | .ok _ k1 => Scheduler.Run_resumed (SWITCH k1)
  | .assertFailed k1 => .assertFailed k1
  | .badPointer k1 => .badPointer k1

/-! ## Scheduler::GoSleep and Scheduler::AlarmTicks (lines 231-274) -/

/-- Modelled from the spec: Thread::Sleep (thread.cc is missing), "sets
thread.status = BLOCKED, and suspends the calling thread via the
Dispatcher's blocking path". The dispatch itself is the routine `Run`. -/
def Thread.Sleep (k : Kernel) (t : Thread) : Kernel :=
  k.setStatus t ThreadStatus.BLOCKED

/-- The part of `GoSleep` up to the point where the caller is suspended in
`t->Sleep(FALSE)`: the saved interrupt level and the state reached. -/
def Scheduler.GoSleep_toSleep (k : Kernel) (t : Thread) (sleepTime : Int) :
    IntStatus × Kernel :=
  let (oldLevel, k1) := k.SetLevel IntStatus.IntOff
  let st : SleepingThread := { thread := t, sleepTime := sleepTime }
  let k2 : Kernel :=
    { k1 with scheduler :=
      { k1.scheduler with
        sleepingList := SortedList_Insert SleepTime_cmp st k1.scheduler.sleepingList } }
  (oldLevel, Thread.Sleep k2 t)

/-- The `while` loop of `AlarmTicks`. The first argument is the content of
`sleepingList` at the loop test; each turn that wakes the head continues
with the list `RemoveFront` leaves. -/
def Scheduler.AlarmTicks_wake : List SleepingThread → Kernel → Outcome Unit
  | [], k => .ok () k
  | st :: rest, k =>
    if st.getSleepTime = 0 then
      match Scheduler.ReadyToRun k st.getThread with
      | .ok _ k1 =>
        Scheduler.AlarmTicks_wake rest
          { k1 with scheduler :=
            { k1.scheduler with AThreadWakeUp := true, sleepingList := rest } }
      | .assertFailed k1 => .assertFailed k1
      | .badPointer k1 => .badPointer k1
    else .ok () k

/-- One timer tick: clear the flag, decrement every sleeper, then wake the
sleepers at the head whose count is zero. -/
def Scheduler.AlarmTicks (k : Kernel) : Outcome Unit :=
  let q := k.scheduler.sleepingList.map SleepingThread.decreaseSleepTime
  Scheduler.AlarmTicks_wake q
    { k with scheduler := { k.scheduler with AThreadWakeUp := false, sleepingList := q } }

/-! ## ThreadedKernel::ThreadedKernel (kernel.cc, lines 26-51) -/

/-- The argument loop of the kernel constructor over `argv[i..]`, with the
scheduler type chosen so far; `none` when `ASSERT(i + 1 < argc)` fails. -/
def ThreadedKernel.scan : List String → SchedulerType → Option SchedulerType
  | [], ty => some ty
  | a :: rest, ty =>
    if a = "-rs" then
      match rest with
      | [] => none
      | _ :: rest2 => ThreadedKernel.scan rest2 ty
    else if a = "-u" then ThreadedKernel.scan rest ty
    else if a = "-SJF" then ThreadedKernel.scan rest SchedulerType.SJF
    else if a = "-FCFS" then ThreadedKernel.scan rest SchedulerType.FCFS
    else if a = "-P" then ThreadedKernel.scan rest SchedulerType.Priority
    else ThreadedKernel.scan rest ty

/-- The scheduler type the kernel constructor settles on for a command
line; `argv[0]` is skipped and the default is RR. -/
def ThreadedKernel.schedulerType (argv : List String) : Option SchedulerType :=
  ThreadedKernel.scan argv.tail SchedulerType.RR

/-! ## ThreadedKernel::Initialize (kernel.cc, lines 60-76) -/

/-- The state `Initialize` leaves: a scheduler constructed with the type
read from the command line, the thread "main" current and RUNNING, and
interrupts enabled. `heap` gives the status fields of the thread objects
that are allocated later. -/
def ThreadedKernel.Initialize (heap : Thread → ThreadStatus) (main : Thread)
    (sType : SchedulerType) : Kernel :=
  { level := IntStatus.IntOn
    currentThread := some main
    status := Function.update heap main ThreadStatus.RUNNING
    destroyed := []
    scheduler := Scheduler.Scheduler sType }

/-! ## Runs of ready-list requests -/

/-- A request made to the ready list. -/
inductive ReadyOp where
  | ready (t : Thread)
  | findNext
  deriving DecidableEq, Repr

/-- The thread a request makes ready, if it is a `ReadyToRun`. -/
def ReadyOp.thread? : ReadyOp → Option Thread
  | .ready t => some t
  | .findNext => none

/-- A run of requests with its bookkeeping: the kernel state, the threads
now queued in the order they were made ready, and what the `FindNextToRun`
calls returned, oldest first. -/
structure Hist where
  k : Kernel
  queued : List Thread
  returned : List (Option Thread)

/-- Serve one request; `none` when the routine does not complete. -/
def ReadyOp.step (h : Hist) : ReadyOp → Option Hist
  | .ready t =>
    match Scheduler.ReadyToRun h.k t with
    | .ok _ k1 => some { h with k := k1, queued := h.queued ++ [t] }
    | _ => none
  | .findNext =>
    match Scheduler.FindNextToRun h.k with
    | .ok r k1 =>
      some
        { k := k1
          queued := match r with
            | some x => h.queued.erase x
            | none => h.queued
          returned := h.returned ++ [r] }
    | _ => none

/-- Serve the requests in order. -/
def runReadyOps (h : Hist) : List ReadyOp → Option Hist
  | [] => some h
  | op :: ops =>
    match op.step h with
    | some h1 => runReadyOps h1 ops
    | none => none

/-- A run that starts on the kernel state `k` with nothing queued. -/
def Hist.start (k : Kernel) : Hist :=
  { k := k, queued := [], returned := [] }

/-- The first-in-first-out queue the spec describes for Round-Robin,
serving one request: a thread made ready joins at the tail, a
`FindNextToRun` takes the head or answers "none". The second component
collects the answers, oldest first. -/
def fifoStep (q : List Thread × List (Option Thread)) :
    ReadyOp → List Thread × List (Option Thread)
  | .ready t => (q.1 ++ [t], q.2)
  | .findNext =>
    match q.1 with
    | [] => ([], q.2 ++ [none])
    | x :: xs => (xs, q.2 ++ [some x])

/-- The first-in-first-out queue of the spec serving a run of requests. -/
def fifoRun (q : List Thread × List (Option Thread)) (ops : List ReadyOp) :
    List Thread × List (Option Thread) :=
  ops.foldl fifoStep q

/-! ## Runs of sleep-queue requests -/

/-- A request that concerns the sleeping list: a thread goes to sleep, the
timer ticks, or the interrupt level is changed by whoever runs in between. -/
inductive SleepOp where
  | goSleep (t : Thread) (sleepTime : Int)
  | alarmTicks
  | setLevel (l : IntStatus)
  deriving DecidableEq, Repr

/-- Serve one request. A `GoSleep` is followed up to the point where its
caller is suspended. -/
def SleepOp.step (k : Kernel) : SleepOp → Outcome Unit
  | .goSleep t n => .ok () (Scheduler.GoSleep_toSleep k t n).2
  | .alarmTicks => Scheduler.AlarmTicks k
  | .setLevel l => .ok () (k.SetLevel l).2

/-- Serve the requests in order; the run stops where a routine aborts. -/
def runSleepOps (k : Kernel) : List SleepOp → Outcome Unit
  | [] => .ok () k
  | op :: ops =>
    match op.step k with
    | .ok _ k1 => runSleepOps k1 ops
    | .assertFailed k1 => .assertFailed k1
    | .badPointer k1 => .badPointer k1

/-- The sleeping list after the given sleepers have been enqueued one after
the other on an empty list. -/
def sleepQueue (l : List SleepingThread) : List SleepingThread :=
  l.foldl (fun acc st => SortedList_Insert SleepTime_cmp st acc) []

/-- A sleeper as the sleeping list shows it once `n` ticks have gone by. -/
def SleepingThread.elapsed (n : Nat) (st : SleepingThread) : SleepingThread :=
  { st with sleepTime := st.sleepTime - n }

/-- The request by which a sleeper enters the sleeping list. -/
def SleepingThread.request (st : SleepingThread) : SleepOp :=
  SleepOp.goSleep st.thread st.sleepTime

/-- A kernel right after `Initialize`, entered with interrupts switched off
as the scheduler routines require: thread 0 is "main", no other thread has
run yet. -/
def bootedOff (sType : SchedulerType) : Kernel :=
  ((ThreadedKernel.Initialize (fun _ => ThreadStatus.BLOCKED) { id := 0, priority := 0 }
    sType).SetLevel IntStatus.IntOff).2

/-- The booted Round-Robin kernel, interrupts off, with thread 7 waiting in
the slot `toBeDestroyed`. -/
def bootedSlotTaken : Kernel :=
  { bootedOff SchedulerType.RR with
    scheduler := { Scheduler.Scheduler SchedulerType.RR with toBeDestroyed := some ⟨7, 0⟩ } }

/-- The booted Round-Robin kernel, interrupts off, with thread 1 asleep for
`n` more ticks and the flag `AThreadWakeUp` as given. -/
def bootedOneSleeper (n : Int) (flag : Bool) : Kernel :=
  { bootedOff SchedulerType.RR with
    scheduler := { Scheduler.Scheduler SchedulerType.RR with
      AThreadWakeUp := flag
      sleepingList := [⟨⟨1, 0⟩, n⟩] } }

/-- A kernel right after `Initialize`, as `Initialize` leaves it: interrupts
are enabled. -/
def bootedOn (sType : SchedulerType) : Kernel :=
  ThreadedKernel.Initialize (fun _ => ThreadStatus.BLOCKED) { id := 0, priority := 0 } sType

/-- The requests of a run made of timer ticks and of `GoSleep` calls with a
positive number of ticks. -/
def SleepOp.positive : SleepOp → Bool
  | .goSleep _ n => decide (0 < n)
  | .alarmTicks => true
  | .setLevel _ => false

/-- The booted Round-Robin kernel, interrupts off, with the given sleeping
list. -/
def bootedSleepers (l : List SleepingThread) : Kernel :=
  { bootedOff SchedulerType.RR with
    scheduler := { Scheduler.Scheduler SchedulerType.RR with sleepingList := l } }

/-- The sleep time a request hands to `GoSleep`, if it is a `GoSleep`. -/
def SleepOp.sleepTime? : SleepOp → Option Int
  | .goSleep _ n => some n
  | .alarmTicks => none
  | .setLevel _ => none

/-- The number of timer ticks in a run of requests. -/
def countTicks : List SleepOp → Nat
  | [] => 0
  | .alarmTicks :: ops => countTicks ops + 1
  | .goSleep _ _ :: ops => countTicks ops
  | .setLevel _ :: ops => countTicks ops

/-- The ready list a priority scheduler holds once the threads of `l` have
been inserted one after the other. -/
def prioQueue (l : List Thread) : List Thread :=
  l.foldl (fun acc t => SortedList_Insert Priority_cmp t acc) []

end Nachos

namespace Nachos

/-! ## Facts about the list library -/

theorem SortedList_Insert_perm {α : Type} (c : α → α → Int) (x : α) (l : List α) :
    (SortedList_Insert c x l).Perm (x :: l) := by
  induction l with
  | nil => simp [SortedList_Insert]
  | cons y ys ih =>
    unfold SortedList_Insert
    split
    · exact List.Perm.refl _
    · exact (List.Perm.cons y ih).trans (List.Perm.swap x y ys)

theorem SortedList_Insert_mem {α : Type} (c : α → α → Int) (x a : α) (l : List α) :
    a ∈ SortedList_Insert c x l ↔ a = x ∨ a ∈ l := by
  rw [(SortedList_Insert_perm c x l).mem_iff, List.mem_cons]

theorem SortedList_Insert_length {α : Type} (c : α → α → Int) (x : α) (l : List α) :
    (SortedList_Insert c x l).length = l.length + 1 := by
  rw [(SortedList_Insert_perm c x l).length_eq, List.length_cons]

/-- Sorted insertion keeps a list ascending in the key the comparator
looks at. -/
theorem SortedList_Insert_sorted {α : Type} (c : α → α → Int) (key : α → Int)
    (hc : ∀ a b, c a b < 0 ↔ key a < key b) (x : α) (l : List α)
    (hl : l.Pairwise (fun a b => key a ≤ key b)) :
    (SortedList_Insert c x l).Pairwise (fun a b => key a ≤ key b) := by
  induction l with
  | nil => simp [SortedList_Insert]
  | cons y ys ih =>
    rw [List.pairwise_cons] at hl
    unfold SortedList_Insert
    split
    · rename_i hlt
      have hxy : key x < key y := (hc x y).1 hlt
      refine List.pairwise_cons.2 ⟨?_, List.pairwise_cons.2 hl⟩
      intro b hb
      rcases List.mem_cons.1 hb with rfl | hb
      · exact le_of_lt hxy
      · exact le_trans (le_of_lt hxy) (hl.1 b hb)
    · rename_i hlt
      have hxy : key y ≤ key x := not_lt.1 (fun h => hlt ((hc x y).2 h))
      refine List.pairwise_cons.2 ⟨?_, ih hl.2⟩
      intro b hb
      rcases (SortedList_Insert_mem c x b ys).1 hb with rfl | hb
      · exact hxy
      · exact hl.1 b hb

/-- A comparator that never answers "below" makes sorted insertion an
append at the tail. -/
theorem SortedList_Insert_tail {α : Type} (c : α → α → Int) (hc : ∀ a b, ¬ c a b < 0)
    (x : α) (l : List α) : SortedList_Insert c x l = l ++ [x] := by
  induction l with
  | nil => rfl
  | cons y ys ih => simp [SortedList_Insert, hc x y, ih]

theorem Priority_cmp_neg (a b : Thread) : Priority_cmp a b < 0 ↔ a.priority < b.priority := by
  unfold Priority_cmp Thread.getPriority
  split <;> simp_all

theorem SleepTime_cmp_neg (x y : SleepingThread) :
    SleepTime_cmp x y < 0 ↔ x.sleepTime < y.sleepTime := by
  unfold SleepTime_cmp SleepingThread.getSleepTime
  split <;> simp_all

/-! ## The ready list under the Priority policy -/

theorem prioQueue_concat (l : List Thread) (t : Thread) :
    prioQueue (l ++ [t]) = SortedList_Insert Priority_cmp t (prioQueue l) := by
  simp [prioQueue, List.foldl_append]

theorem prioQueue_perm (l : List Thread) : (prioQueue l).Perm l := by
  induction l using List.reverseRecOn with
  | nil => simp [prioQueue]
  | append_singleton l t ih =>
    rw [prioQueue_concat]
    exact (SortedList_Insert_perm _ _ _).trans
      ((List.Perm.cons t ih).trans (List.perm_append_singleton t l).symm)

theorem prioQueue_sorted (l : List Thread) :
    (prioQueue l).Pairwise (fun a b => a.priority ≤ b.priority) := by
  induction l using List.reverseRecOn with
  | nil => simp [prioQueue]
  | append_singleton l t ih =>
    rw [prioQueue_concat]
    exact SortedList_Insert_sorted Priority_cmp (fun a => a.priority) Priority_cmp_neg t _ ih

/-- The head of the priority queue has the smallest priority queued. -/
theorem prioQueue_head_le (l : List Thread) (x : Thread) (rest : List Thread)
    (h : prioQueue l = x :: rest) : ∀ y ∈ l, x.priority ≤ y.priority := by
  intro y hy
  have hs := prioQueue_sorted l
  have hy2 : y ∈ prioQueue l := (prioQueue_perm l).mem_iff.2 hy
  rw [h] at hs hy2
  rcases List.mem_cons.1 hy2 with rfl | hy3
  · exact le_refl _
  · exact (List.pairwise_cons.1 hs).1 y hy3

/-- Taking the head off the priority queue gives the queue of the threads
that stay. -/
theorem prioQueue_erase_head (l : List Thread) :
    l.Nodup → ∀ (x : Thread) (rest : List Thread), prioQueue l = x :: rest →
      prioQueue (l.erase x) = rest := by
  induction l using List.reverseRecOn with
  | nil => intro _ x rest h; simp [prioQueue] at h
  | append_singleton l t ih =>
    intro hn x rest h
    rw [prioQueue_concat] at h
    have hnl : l.Nodup := (List.nodup_append.1 hn).1
    have htl : t ∉ l := by
      intro ht
      exact (List.nodup_append.1 hn).2.2 ht (List.mem_singleton_self t)
    cases hq : prioQueue l with
    | nil =>
      have hl : l = [] := by
        have := (prioQueue_perm l).length_eq
        rw [hq] at this
        exact List.length_eq_zero.1 this.symm
      subst hl
      rw [hq] at h
      simp [SortedList_Insert] at h
      obtain ⟨rfl, rfl⟩ := h
      simp [prioQueue]
    | cons y r =>
      rw [hq] at h
      unfold SortedList_Insert at h
      split at h
      · simp only [List.cons.injEq] at h
        obtain ⟨rfl, rfl⟩ := h
        rw [List.erase_append_right _ htl]
        simp [hq]
      · simp only [List.cons.injEq] at h
        obtain ⟨rfl, rfl⟩ := h
        have hyl : y ∈ l := (prioQueue_perm l).mem_iff.1 (by rw [hq]; exact List.mem_cons_self _ _)
        rw [List.erase_append_left _ hyl, prioQueue_concat, ih hnl y r hq]

/-- Every thread made ready before the head of the priority queue has a
strictly larger priority: among equals the head is the earliest. -/
theorem prioQueue_head_earliest (l : List Thread) :
    l.Nodup → ∀ (x : Thread) (rest : List Thread), prioQueue l = x :: rest →
      ∀ l1 l2, l = l1 ++ x :: l2 → ∀ y ∈ l1, x.priority < y.priority := by
  induction l using List.reverseRecOn with
  | nil => intro _ x rest h; simp [prioQueue] at h
  | append_singleton l t ih =>
    intro hn x rest h l1 l2 hsplit y hy
    have hnl : l.Nodup := (List.nodup_append.1 hn).1
    have htl : t ∉ l := by
      intro ht
      exact (List.nodup_append.1 hn).2.2 ht (List.mem_singleton_self t)
    rw [prioQueue_concat] at h
    cases hq : prioQueue l with
    | nil =>
      have hl : l = [] := by
        have := (prioQueue_perm l).length_eq
        rw [hq] at this
        exact List.length_eq_zero.1 this.symm
      subst hl
      cases l1 with
      | nil => simp at hy
      | cons a l1 =>
        have := congrArg List.length hsplit
        simp at this
    | cons z r =>
      rw [hq] at h
      unfold SortedList_Insert at h
      split at h
      · rename_i hlt
        simp only [List.cons.injEq] at h
        obtain ⟨hx, -⟩ := h
        subst hx
        -- the new thread went to the front: it is below the old head
        have hyl : y ∈ l := by
          rcases List.eq_nil_or_concat l2 with rfl | ⟨l2a, b, rfl⟩
          · have h2 : l ++ [t] = l1 ++ [t] := hsplit
            have := List.append_inj_left' h2 rfl
            rw [this]; exact hy
          · have h2 : l ++ [t] = (l1 ++ t :: l2a) ++ [b] := by
              rw [hsplit]; simp
            have h3 := List.append_inj_left' h2 rfl
            rw [h3]; exact List.mem_append_left _ hy
        have h1 := prioQueue_head_le l z r hq y hyl
        have h2 := (Priority_cmp_neg t z).1 hlt
        exact lt_of_lt_of_le h2 h1
      · simp only [List.cons.injEq] at h
        obtain ⟨hx, -⟩ := h
        subst hx
        have hzl : z ∈ l :=
          (prioQueue_perm l).mem_iff.1 (by rw [hq]; exact List.mem_cons_self _ _)
        rcases List.eq_nil_or_concat l2 with rfl | ⟨l2a, b, rfl⟩
        · have h2 : l ++ [t] = l1 ++ [z] := hsplit
          have := List.append_inj_right' h2 rfl
          simp at this
          subst this
          exact absurd hzl htl
        · have h2 : l ++ [t] = (l1 ++ z :: l2a) ++ [b] := by
            rw [hsplit]; simp
          have h3 := List.append_inj_left' h2 rfl
          exact ih hnl z r hq l1 l2a h3 y hy

/-! ## ReadyToRun and FindNextToRun, step by step -/

theorem ReadyToRun_ok (k : Kernel) (t : Thread) (r : ReadyList)
    (hl : k.level = IntStatus.IntOff) (hr : k.scheduler.readyList = some r) :
    Scheduler.ReadyToRun k t =
      .ok () { k.setStatus t ThreadStatus.READY with
        scheduler := { k.scheduler with readyList := some (r.Append t) } } := by
  simp [Scheduler.ReadyToRun, hl, Kernel.setStatus, hr]

theorem FindNextToRun_nil (k : Kernel) (r : ReadyList)
    (hl : k.level = IntStatus.IntOff) (hr : k.scheduler.readyList = some r)
    (hi : r.items = []) : Scheduler.FindNextToRun k = .ok none k := by
  simp [Scheduler.FindNextToRun, hl, hr, hi]

theorem FindNextToRun_cons (k : Kernel) (r : ReadyList) (x : Thread) (xs : List Thread)
    (hl : k.level = IntStatus.IntOff) (hr : k.scheduler.readyList = some r)
    (hi : r.items = x :: xs) :
    Scheduler.FindNextToRun k =
      .ok (some x)
        { k with scheduler := { k.scheduler with readyList := some { r with items := xs } } } := by
  simp [Scheduler.FindNextToRun, hl, hr, hi]

/-- Runs on a Priority scheduler complete, and the ready list is at every
moment the priority queue of the threads queued, taken in the order in which
they were made ready. -/
theorem runReadyOps_priority (ops : List ReadyOp) :
    ∀ h : Hist, h.k.level = IntStatus.IntOff →
      h.k.scheduler.readyList =
        some { compare := some Priority_cmp, items := prioQueue h.queued } →
      (h.queued ++ ops.filterMap ReadyOp.thread?).Nodup →
      ∃ h1, runReadyOps h ops = some h1 ∧ h1.k.level = IntStatus.IntOff ∧
        h1.k.scheduler.readyList =
          some { compare := some Priority_cmp, items := prioQueue h1.queued } ∧
        h1.queued.Nodup := by
  induction ops with
  | nil =>
    intro h hl hr hn
    exact ⟨h, rfl, hl, hr, by simpa using hn⟩
  | cons op ops ih =>
    intro h hl hr hn
    have hstep : ∃ h2, ReadyOp.step h op = some h2 ∧ h2.k.level = IntStatus.IntOff ∧
        h2.k.scheduler.readyList =
          some { compare := some Priority_cmp, items := prioQueue h2.queued } ∧
        (h2.queued ++ ops.filterMap ReadyOp.thread?).Nodup := by
      cases op with
      | ready t =>
        simp only [ReadyOp.step, ReadyToRun_ok h.k t _ hl hr]
        refine ⟨_, rfl, ?_, ?_, ?_⟩
        · simpa [Kernel.setStatus] using hl
        · simp [ReadyList.Append, prioQueue_concat]
        · simpa [ReadyOp.thread?] using hn
      | findNext =>
        have hn1 : h.queued.Nodup := (List.nodup_append.1 hn).1
        have hn0 : (h.queued ++ ops.filterMap ReadyOp.thread?).Nodup := by
          simpa [ReadyOp.thread?] using hn
        cases hq : prioQueue h.queued with
        | nil =>
          simp only [ReadyOp.step, FindNextToRun_nil h.k _ hl hr hq]
          exact ⟨_, rfl, hl, hr, hn0⟩
        | cons x xs =>
          simp only [ReadyOp.step, FindNextToRun_cons h.k _ x xs hl hr hq]
          refine ⟨_, rfl, hl, ?_, ?_⟩
          · simp [prioQueue_erase_head h.queued hn1 x xs hq]
          · have hsub : (h.queued.erase x ++ ops.filterMap ReadyOp.thread?).Sublist
                (h.queued ++ ops.filterMap ReadyOp.thread?) :=
              List.Sublist.append (List.erase_sublist x h.queued) (List.Sublist.refl _)
            exact List.Nodup.sublist hsub hn0
    obtain ⟨h2, hs2, hl2, hr2, hn2⟩ := hstep
    obtain ⟨h1, hrun, hrest⟩ := ih h2 hl2 hr2 hn2
    exact ⟨h1, by simp [runReadyOps, hs2, hrun], hrest⟩

/-- C1. On a scheduler constructed with the Priority policy and run with
interrupts off, after any run of ReadyToRun calls on distinct threads
interleaved with FindNextToRun calls, the run completes, the ready list
holds exactly the threads made ready and not yet returned, and the next
FindNextToRun, when the ready list is not empty, completes and returns a
queued thread whose priority is smallest among the queued threads and which
was made ready before every other queued thread of the same priority (every
thread queued earlier has a strictly larger priority). -/
theorem priority_findNext_smallest_earliest (k0 : Kernel) (ops : List ReadyOp)
    (hs : k0.scheduler = Scheduler.Scheduler SchedulerType.Priority)
    (hl : k0.level = IntStatus.IntOff)
    (hd : (ops.filterMap ReadyOp.thread?).Nodup) :
    ∃ h, runReadyOps (Hist.start k0) ops = some h ∧
      h.k.readyItems.Perm h.queued ∧
      (h.k.readyItems ≠ [] →
        ∃ x k1, Scheduler.FindNextToRun h.k = .ok (some x) k1 ∧
          x ∈ h.k.readyItems ∧
          (∀ y ∈ h.k.readyItems, x.priority ≤ y.priority) ∧
          (∀ l1 l2, h.queued = l1 ++ x :: l2 → ∀ y ∈ l1, x.priority < y.priority)) := by
  obtain ⟨h, hrun, hlv, hr, hn⟩ := runReadyOps_priority ops (Hist.start k0) hl
    (by simp [Hist.start, hs, Scheduler.Scheduler, prioQueue]) (by simpa [Hist.start] using hd)
  have hitems : h.k.readyItems = prioQueue h.queued := by simp [Kernel.readyItems, hr]
  refine ⟨h, hrun, ?_, ?_⟩
  · rw [hitems]; exact prioQueue_perm _
  · intro hne
    rw [hitems] at hne ⊢
    cases hq : prioQueue h.queued with
    | nil => exact absurd hq hne
    | cons x xs =>
      refine ⟨x, _, FindNextToRun_cons h.k _ x xs hlv hr hq, List.mem_cons_self _ _, ?_, ?_⟩
      · intro y hy
        have hy2 : y ∈ h.queued := (prioQueue_perm h.queued).mem_iff.1 (by rw [hq]; exact hy)
        exact prioQueue_head_le h.queued x xs hq y hy2
      · exact prioQueue_head_earliest h.queued hn x xs hq

/-- C1, witness. Threads A (priority 5), B (priority 1) and C (priority 5)
made ready in that order on a Priority scheduler come back as B, A, C; and
the theorem applies to the run that made them ready. -/
theorem priority_findNext_smallest_earliest_witness :
    (runReadyOps (Hist.start (bootedOff SchedulerType.Priority))
        [ReadyOp.ready ⟨1, 5⟩, ReadyOp.ready ⟨2, 1⟩, ReadyOp.ready ⟨3, 5⟩,
         ReadyOp.findNext, ReadyOp.findNext, ReadyOp.findNext]).map Hist.returned
      = some [some ⟨2, 1⟩, some ⟨1, 5⟩, some ⟨3, 5⟩] ∧
    ([ReadyOp.ready ⟨1, 5⟩, ReadyOp.ready ⟨2, 1⟩, ReadyOp.ready ⟨3, 5⟩].filterMap
        ReadyOp.thread?).Nodup ∧
    ∃ h, runReadyOps (Hist.start (bootedOff SchedulerType.Priority))
        [ReadyOp.ready ⟨1, 5⟩, ReadyOp.ready ⟨2, 1⟩, ReadyOp.ready ⟨3, 5⟩] = some h ∧
      h.k.readyItems.Perm h.queued ∧
      (h.k.readyItems ≠ [] →
        ∃ x k1, Scheduler.FindNextToRun h.k = .ok (some x) k1 ∧
          x ∈ h.k.readyItems ∧
          (∀ y ∈ h.k.readyItems, x.priority ≤ y.priority) ∧
          (∀ l1 l2, h.queued = l1 ++ x :: l2 → ∀ y ∈ l1, x.priority < y.priority)) :=
  ⟨by decide, by decide,
    priority_findNext_smallest_earliest (bootedOff SchedulerType.Priority)
      [ReadyOp.ready ⟨1, 5⟩, ReadyOp.ready ⟨2, 1⟩, ReadyOp.ready ⟨3, 5⟩] rfl rfl (by decide)⟩

/-! ## The ready list under Round-Robin and FCFS -/

theorem FCFS_cmp_not_neg (a b : Thread) : ¬ FCFS_cmp a b < 0 := by
  simp [FCFS_cmp]

/-- A ready list whose `Append` puts the thread at the tail serves every run
of requests like the first-in-first-out queue. -/
theorem runReadyOps_fifo (c : Option (Thread → Thread → Int))
    (hc : ∀ (t : Thread) (xs : List Thread),
      ReadyList.Append { compare := c, items := xs } t = { compare := c, items := xs ++ [t] })
    (ops : List ReadyOp) :
    ∀ (h : Hist) (xs : List Thread), h.k.level = IntStatus.IntOff →
      h.k.scheduler.readyList = some { compare := c, items := xs } →
      ∃ h1, runReadyOps h ops = some h1 ∧ h1.k.level = IntStatus.IntOff ∧
        h1.k.scheduler.readyList =
          some { compare := c, items := (fifoRun (xs, h.returned) ops).1 } ∧
        h1.returned = (fifoRun (xs, h.returned) ops).2 := by
  induction ops with
  | nil =>
    intro h xs hl hr
    exact ⟨h, rfl, hl, hr, rfl⟩
  | cons op ops ih =>
    intro h xs hl hr
    have hstep : ∃ h2, ReadyOp.step h op = some h2 ∧ h2.k.level = IntStatus.IntOff ∧
        h2.k.scheduler.readyList =
          some { compare := c, items := (fifoStep (xs, h.returned) op).1 } ∧
        h2.returned = (fifoStep (xs, h.returned) op).2 := by
      cases op with
      | ready t =>
        simp only [ReadyOp.step, ReadyToRun_ok h.k t _ hl hr]
        refine ⟨_, rfl, ?_, ?_, rfl⟩
        · simpa [Kernel.setStatus] using hl
        · simp [hc, fifoStep]
      | findNext =>
        cases xs with
        | nil =>
          simp only [ReadyOp.step, FindNextToRun_nil h.k _ hl hr rfl]
          exact ⟨_, rfl, hl, hr, rfl⟩
        | cons x xs =>
          simp only [ReadyOp.step, FindNextToRun_cons h.k _ x xs hl hr rfl]
          exact ⟨_, rfl, hl, rfl, rfl⟩
    obtain ⟨h2, hs2, hl2, hr2, hret2⟩ := hstep
    obtain ⟨h1, hrun, hl1, hr1, hret1⟩ := ih h2 _ hl2 hr2
    refine ⟨h1, by simp [runReadyOps, hs2, hrun], hl1, ?_, ?_⟩
    · rw [hr1, hret2]; rfl
    · rw [hret1, hret2]; rfl

theorem fifoRun_append (q : List Thread × List (Option Thread)) (a b : List ReadyOp) :
    fifoRun q (a ++ b) = fifoRun (fifoRun q a) b := by
  simp [fifoRun, List.foldl_append]

theorem fifoRun_ready (ts : List Thread) :
    ∀ (q : List Thread) (r : List (Option Thread)),
      fifoRun (q, r) (ts.map ReadyOp.ready) = (q ++ ts, r) := by
  induction ts with
  | nil => intro q r; simp [fifoRun]
  | cons t ts ih =>
    intro q r
    have := ih (q ++ [t]) r
    simp only [fifoRun, List.map_cons, List.foldl_cons, fifoStep] at this ⊢
    rw [this]; simp

theorem fifoRun_findNext_nil (m : Nat) (r : List (Option Thread)) :
    fifoRun ([], r) (List.replicate m ReadyOp.findNext) = ([], r ++ List.replicate m none) := by
  induction m generalizing r with
  | zero => simp [fifoRun]
  | succ m ih =>
    have := ih (r ++ [none])
    simp only [fifoRun, List.replicate_succ, List.foldl_cons, fifoStep] at this ⊢
    rw [this]; simp

theorem fifoRun_findNext (m : Nat) (q : List Thread) :
    ∀ r : List (Option Thread),
      fifoRun (q, r) (List.replicate (q.length + m) ReadyOp.findNext) =
        ([], r ++ q.map some ++ List.replicate m none) := by
  induction q with
  | nil => intro r; simpa using fifoRun_findNext_nil m r
  | cons x xs ih =>
    intro r
    have h1 : (x :: xs).length + m = (xs.length + m) + 1 := by simp; omega
    have := ih (r ++ [some x])
    rw [h1]
    simp only [fifoRun, List.replicate_succ, List.foldl_cons, fifoStep] at this ⊢
    rw [this]; simp

/-- C2. On a scheduler constructed with the Round-Robin policy and run with
interrupts off, making the distinct threads of a list ready in order from an
empty ready list and then calling FindNextToRun as many times as there are
threads plus m more completes, returns exactly those threads in insertion
order followed by m answers "none", and leaves the ready list empty. -/
theorem rr_findNext_fifo (k0 : Kernel) (ts : List Thread) (m : Nat)
    (hs : k0.scheduler = Scheduler.Scheduler SchedulerType.RR)
    (hl : k0.level = IntStatus.IntOff) (_hd : ts.Nodup) :
    ∃ h, runReadyOps (Hist.start k0)
        (ts.map ReadyOp.ready ++ List.replicate (ts.length + m) ReadyOp.findNext) = some h ∧
      h.returned = ts.map some ++ List.replicate m none ∧
      h.k.readyItems = [] := by
  obtain ⟨h, hrun, -, hr, hret⟩ := runReadyOps_fifo none
    (by intro t xs; simp [ReadyList.Append, List_Append])
    (ts.map ReadyOp.ready ++ List.replicate (ts.length + m) ReadyOp.findNext)
    (Hist.start k0) [] hl (by simp [Hist.start, hs, Scheduler.Scheduler])
  have hf : fifoRun (([] : List Thread), (Hist.start k0).returned)
      (ts.map ReadyOp.ready ++ List.replicate (ts.length + m) ReadyOp.findNext) =
      ([], ts.map some ++ List.replicate m none) := by
    rw [fifoRun_append, fifoRun_ready, List.nil_append, fifoRun_findNext]
    simp [Hist.start]
  rw [hf] at hr hret
  exact ⟨h, hrun, hret, by simp [Kernel.readyItems, hr]⟩

/-- C2, witness. Three threads made ready on a Round-Robin scheduler come
back in the order they were made ready, whatever their priorities, and the
next two calls answer "none". -/
theorem rr_findNext_fifo_witness :
    ([⟨1, 5⟩, ⟨2, 1⟩, ⟨3, 5⟩] : List Thread).Nodup ∧
    ∃ h, runReadyOps (Hist.start (bootedOff SchedulerType.RR))
        (([⟨1, 5⟩, ⟨2, 1⟩, ⟨3, 5⟩] : List Thread).map ReadyOp.ready ++
          List.replicate (([⟨1, 5⟩, ⟨2, 1⟩, ⟨3, 5⟩] : List Thread).length + 2)
            ReadyOp.findNext) = some h ∧
      h.returned = ([⟨1, 5⟩, ⟨2, 1⟩, ⟨3, 5⟩] : List Thread).map some ++ List.replicate 2 none ∧
      h.k.readyItems = [] :=
  ⟨by decide, rr_findNext_fifo (bootedOff SchedulerType.RR) [⟨1, 5⟩, ⟨2, 1⟩, ⟨3, 5⟩] 2 rfl rfl
    (by decide)⟩

/-- C3. A scheduler constructed with FCFS and one constructed with
Round-Robin, both run with interrupts off, serve every run of ReadyToRun and
FindNextToRun requests on distinct threads alike: both runs complete, every
FindNextToRun returns the same result on both, and the two ready lists hold
the same threads in the same order; for FCFS_cmp answers 1 whatever its
arguments, so that sorted insertion under it places the new thread at the
tail. -/
theorem fcfs_same_as_rr (kF kR : Kernel) (ops : List ReadyOp)
    (hF : kF.scheduler = Scheduler.Scheduler SchedulerType.FCFS)
    (hR : kR.scheduler = Scheduler.Scheduler SchedulerType.RR)
    (hlF : kF.level = IntStatus.IntOff) (hlR : kR.level = IntStatus.IntOff)
    (_hd : (ops.filterMap ReadyOp.thread?).Nodup) :
    (∃ h1 h2, runReadyOps (Hist.start kF) ops = some h1 ∧
      runReadyOps (Hist.start kR) ops = some h2 ∧
      h1.returned = h2.returned ∧ h1.k.readyItems = h2.k.readyItems) ∧
    (∀ a b, FCFS_cmp a b = 1) ∧
    (∀ (t : Thread) (xs : List Thread), SortedList_Insert FCFS_cmp t xs = xs ++ [t]) := by
  refine ⟨?_, fun _ _ => rfl, fun t xs => SortedList_Insert_tail FCFS_cmp FCFS_cmp_not_neg t xs⟩
  obtain ⟨h1, hrun1, -, hr1, hret1⟩ := runReadyOps_fifo (some FCFS_cmp)
    (by intro t xs
        simp [ReadyList.Append, SortedList_Insert_tail FCFS_cmp FCFS_cmp_not_neg])
    ops (Hist.start kF) [] hlF (by simp [Hist.start, hF, Scheduler.Scheduler])
  obtain ⟨h2, hrun2, -, hr2, hret2⟩ := runReadyOps_fifo none
    (by intro t xs; simp [ReadyList.Append, List_Append])
    ops (Hist.start kR) [] hlR (by simp [Hist.start, hR, Scheduler.Scheduler])
  refine ⟨h1, h2, hrun1, hrun2, ?_, ?_⟩
  · rw [hret1, hret2]; rfl
  · simp [Kernel.readyItems, hr1, hr2, Hist.start]

/-- C3, witness. An interleaved run on threads of different priorities is
served alike by an FCFS and a Round-Robin scheduler. -/
theorem fcfs_same_as_rr_witness :
    (([ReadyOp.ready ⟨1, 5⟩, ReadyOp.ready ⟨2, 1⟩, ReadyOp.findNext, ReadyOp.ready ⟨3, 0⟩,
        ReadyOp.findNext] : List ReadyOp).filterMap ReadyOp.thread?).Nodup ∧
    ((∃ h1 h2, runReadyOps (Hist.start (bootedOff SchedulerType.FCFS))
        [ReadyOp.ready ⟨1, 5⟩, ReadyOp.ready ⟨2, 1⟩, ReadyOp.findNext, ReadyOp.ready ⟨3, 0⟩,
          ReadyOp.findNext] = some h1 ∧
      runReadyOps (Hist.start (bootedOff SchedulerType.RR))
        [ReadyOp.ready ⟨1, 5⟩, ReadyOp.ready ⟨2, 1⟩, ReadyOp.findNext, ReadyOp.ready ⟨3, 0⟩,
          ReadyOp.findNext] = some h2 ∧
      h1.returned = h2.returned ∧ h1.k.readyItems = h2.k.readyItems) ∧
    (∀ a b, FCFS_cmp a b = 1) ∧
    (∀ (t : Thread) (xs : List Thread), SortedList_Insert FCFS_cmp t xs = xs ++ [t])) :=
  ⟨by decide, fcfs_same_as_rr (bootedOff SchedulerType.FCFS) (bootedOff SchedulerType.RR)
    [ReadyOp.ready ⟨1, 5⟩, ReadyOp.ready ⟨2, 1⟩, ReadyOp.findNext, ReadyOp.ready ⟨3, 0⟩,
      ReadyOp.findNext] rfl rfl rfl rfl (by decide)⟩

/-! ## The sleeping list and the tick driver -/

theorem ReadyList_Append_perm (r : ReadyList) (t : Thread) :
    (r.Append t).items.Perm (r.items ++ [t]) := by
  unfold ReadyList.Append
  split
  · exact List.Perm.refl _
  · exact (SortedList_Insert_perm _ t r.items).trans (List.perm_append_singleton t r.items).symm

/-- The three ways `ReadyToRun` can end. -/
theorem ReadyToRun_cases (k : Kernel) (t : Thread) :
    (k.level ≠ IntStatus.IntOff ∧ Scheduler.ReadyToRun k t = .assertFailed k) ∨
    (k.level = IntStatus.IntOff ∧ k.scheduler.readyList = none ∧
      Scheduler.ReadyToRun k t = .badPointer (k.setStatus t ThreadStatus.READY)) ∨
    (∃ r, k.level = IntStatus.IntOff ∧ k.scheduler.readyList = some r ∧
      Scheduler.ReadyToRun k t =
        .ok () { k.setStatus t ThreadStatus.READY with
          scheduler := { k.scheduler with readyList := some (r.Append t) } }) := by
  by_cases hl : k.level = IntStatus.IntOff
  · cases hr : k.scheduler.readyList with
    | none =>
      right; left
      exact ⟨hl, rfl, by simp [Scheduler.ReadyToRun, hl, Kernel.setStatus, hr]⟩
    | some r =>
      right; right
      exact ⟨r, hl, rfl, ReadyToRun_ok k t r hl hr⟩
  · left
    exact ⟨hl, by simp [Scheduler.ReadyToRun, hl]⟩

/-- What the wake loop does, however it ends: it takes a run of expired
sleepers off the head of the sleeping list, puts their threads on the ready
list, and raises the flag exactly when that run is not empty. -/
theorem AlarmTicks_wake_moves (q : List SleepingThread) :
    ∀ k : Kernel, k.scheduler.sleepingList = q →
      ∃ woken : List SleepingThread,
        q = woken ++ (Scheduler.AlarmTicks_wake q k).state.scheduler.sleepingList ∧
        (∀ st ∈ woken, st.sleepTime = 0) ∧
        (Scheduler.AlarmTicks_wake q k).state.readyItems.Perm
          (k.readyItems ++ woken.map SleepingThread.thread) ∧
        (Scheduler.AlarmTicks_wake q k).state.scheduler.AThreadWakeUp =
          (k.scheduler.AThreadWakeUp || !woken.isEmpty) := by
  induction q with
  | nil =>
    intro k hk
    exact ⟨[], by simp [Scheduler.AlarmTicks_wake, Outcome.state, hk],
      by simp, by simp [Scheduler.AlarmTicks_wake, Outcome.state],
      by simp [Scheduler.AlarmTicks_wake, Outcome.state]⟩
  | cons st rest ih =>
    intro k hk
    by_cases h0 : st.getSleepTime = 0
    · rcases ReadyToRun_cases k st.getThread with ⟨-, hr⟩ | ⟨-, hnone, hr⟩ | ⟨r, -, hsome, hr⟩
      · refine ⟨[], ?_, by simp, ?_, ?_⟩ <;>
          simp [Scheduler.AlarmTicks_wake, h0, hr, Outcome.state, hk]
      · refine ⟨[], ?_, by simp, ?_, ?_⟩ <;>
          simp [Scheduler.AlarmTicks_wake, h0, hr, Outcome.state, hk, Kernel.setStatus,
            Kernel.readyItems, hnone]
      · obtain ⟨woken, hq, hz, hp, hf⟩ := ih
          { k.setStatus st.getThread ThreadStatus.READY with
            scheduler := { k.scheduler with
              readyList := some (r.Append st.getThread)
              AThreadWakeUp := true
              sleepingList := rest } } rfl
        have hw : Scheduler.AlarmTicks_wake (st :: rest) k =
            Scheduler.AlarmTicks_wake rest
              { k.setStatus st.getThread ThreadStatus.READY with
                scheduler := { k.scheduler with
                  readyList := some (r.Append st.getThread)
                  AThreadWakeUp := true
                  sleepingList := rest } } := by
          simp [Scheduler.AlarmTicks_wake, h0, hr]
        rw [hw]
        refine ⟨st :: woken, ?_, ?_, ?_, ?_⟩
        · rw [List.cons_append, ← hq]
        · intro s hs
          rcases List.mem_cons.1 hs with rfl | hs
          · exact h0
          · exact hz s hs
        · refine hp.trans ?_
          have h1 : (r.Append st.getThread).items.Perm (r.items ++ [st.getThread]) :=
            ReadyList_Append_perm r st.getThread
          simp only [Kernel.readyItems, Kernel.setStatus, hsome, List.map_cons]
          have h2 := h1.append_right (woken.map SleepingThread.thread)
          simpa [SleepingThread.getThread] using h2
        · rw [hf]; simp
    · refine ⟨[], ?_, by simp, ?_, ?_⟩ <;>
        simp [Scheduler.AlarmTicks_wake, h0, Outcome.state, hk]

/-- However `AlarmTicks` ends, the sleeping list it leaves is a tail of the
list of decremented sleepers. -/
theorem AlarmTicks_sleepingList_suffix (k : Kernel) :
    (Scheduler.AlarmTicks k).state.scheduler.sleepingList <:+
      k.scheduler.sleepingList.map SleepingThread.decreaseSleepTime := by
  obtain ⟨woken, hq, -⟩ := AlarmTicks_wake_moves
    (k.scheduler.sleepingList.map SleepingThread.decreaseSleepTime)
    { k with scheduler := { k.scheduler with
        AThreadWakeUp := false
        sleepingList := k.scheduler.sleepingList.map SleepingThread.decreaseSleepTime } } rfl
  exact ⟨woken, hq.symm⟩

/-- The decrement is the subtraction of one reduced into the range of a
32-bit int. -/
theorem decreaseSleepTime_wraps (st : SleepingThread)
    (h1 : INT_MIN ≤ st.sleepTime) (h2 : st.sleepTime ≤ INT_MAX) :
    st.decreaseSleepTime.sleepTime =
      (st.sleepTime - 1 + 2147483648) % 4294967296 - 2147483648 := by
  unfold SleepingThread.decreaseSleepTime INT_MIN INT_MAX at *
  split <;> simp only <;> omega

theorem decreaseSleepTime_above (st : SleepingThread) (h : INT_MIN < st.sleepTime) :
    st.decreaseSleepTime.sleepTime = st.sleepTime - 1 := by
  have hne : st.sleepTime ≠ INT_MIN := ne_of_gt h
  simp [SleepingThread.decreaseSleepTime, hne]

/-- Away from `INT_MIN` the decrement keeps a list ascending. -/
theorem decreaseSleepTime_sorted (l : List SleepingThread)
    (h : l.Pairwise (fun a b => a.sleepTime ≤ b.sleepTime))
    (hmin : ∀ e ∈ l, INT_MIN < e.sleepTime) :
    (l.map SleepingThread.decreaseSleepTime).Pairwise (fun a b => a.sleepTime ≤ b.sleepTime) := by
  induction l with
  | nil => simp
  | cons x xs ih =>
    rw [List.pairwise_cons] at h
    rw [List.map_cons, List.pairwise_cons]
    refine ⟨?_, ih h.2 (fun e he => hmin e (List.mem_cons_of_mem _ he))⟩
    intro b hb
    obtain ⟨a, ha, rfl⟩ := List.mem_map.1 hb
    rw [decreaseSleepTime_above x (hmin x (List.mem_cons_self _ _)),
      decreaseSleepTime_above a (hmin a (List.mem_cons_of_mem _ ha))]
    have := h.1 a ha
    omega

/-! ## Tick accounting -/

/-- With interrupts off and a ready list in place the wake loop completes:
it wakes the sleepers at the head whose count is zero, in order, and stops
at the first other sleeper. -/
theorem AlarmTicks_wake_ok (q : List SleepingThread) :
    ∀ (k : Kernel) (r : ReadyList), k.level = IntStatus.IntOff →
      k.scheduler.readyList = some r → k.scheduler.sleepingList = q →
      ∃ k1, Scheduler.AlarmTicks_wake q k = .ok () k1 ∧
        k1.level = IntStatus.IntOff ∧
        k1.scheduler.readyList =
          some ((q.takeWhile (fun st => decide (st.sleepTime = 0))).foldl
            (fun r st => r.Append st.thread) r) ∧
        k1.scheduler.sleepingList = q.dropWhile (fun st => decide (st.sleepTime = 0)) ∧
        k1.scheduler.AThreadWakeUp =
          (k.scheduler.AThreadWakeUp ||
            !(q.takeWhile (fun st => decide (st.sleepTime = 0))).isEmpty) ∧
        (∀ t, k1.status t =
          if t ∈ (q.takeWhile (fun st => decide (st.sleepTime = 0))).map SleepingThread.thread
          then ThreadStatus.READY else k.status t) := by
  induction q with
  | nil =>
    intro k r hl hr hq
    exact ⟨k, rfl, hl, by simpa using hr, by simpa using hq, by simp, by simp⟩
  | cons st rest ih =>
    intro k r hl hr hq
    by_cases h0 : st.sleepTime = 0
    · obtain ⟨k1, hk1, hl1, hr1, hq1, hf1, hs1⟩ := ih
        { k.setStatus st.getThread ThreadStatus.READY with
          scheduler := { k.scheduler with
            readyList := some (r.Append st.getThread)
            AThreadWakeUp := true
            sleepingList := rest } } (r.Append st.getThread)
        (by simpa [Kernel.setStatus] using hl) rfl rfl
      refine ⟨k1, ?_, hl1, ?_, ?_, ?_, ?_⟩
      · simp [Scheduler.AlarmTicks_wake, SleepingThread.getSleepTime, h0,
          ReadyToRun_ok k st.getThread r hl hr, hk1]
      · simp [hr1, List.takeWhile_cons, h0, SleepingThread.getThread]
      · simp [hq1, List.dropWhile_cons, h0]
      · simp [hf1, List.takeWhile_cons, h0]
      · intro t
        rw [hs1 t]
        simp only [List.takeWhile_cons, h0, decide_True, if_true, List.map_cons,
          List.mem_cons, Kernel.setStatus, SleepingThread.getThread]
        by_cases ht : t = st.thread
        · subst ht; simp
        · simp [ht, Function.update_noteq ht]
    · refine ⟨k, ?_, hl, ?_, ?_, ?_, ?_⟩
      · simp [Scheduler.AlarmTicks_wake, SleepingThread.getSleepTime, h0]
      · simp [List.takeWhile_cons, h0, hr]
      · simp [List.dropWhile_cons, h0, hq]
      · simp [List.takeWhile_cons, h0]
      · simp [List.takeWhile_cons, h0]

/-- With interrupts off and a ready list in place a tick completes. -/
theorem AlarmTicks_ok (k : Kernel) (r : ReadyList) (hl : k.level = IntStatus.IntOff)
    (hr : k.scheduler.readyList = some r) :
    ∃ k1, Scheduler.AlarmTicks k = .ok () k1 ∧
      k1.level = IntStatus.IntOff ∧
      k1.scheduler.readyList =
        some (((k.scheduler.sleepingList.map SleepingThread.decreaseSleepTime).takeWhile
          (fun st => decide (st.sleepTime = 0))).foldl (fun r st => r.Append st.thread) r) ∧
      k1.scheduler.sleepingList =
        (k.scheduler.sleepingList.map SleepingThread.decreaseSleepTime).dropWhile
          (fun st => decide (st.sleepTime = 0)) ∧
      k1.scheduler.AThreadWakeUp =
        !((k.scheduler.sleepingList.map SleepingThread.decreaseSleepTime).takeWhile
          (fun st => decide (st.sleepTime = 0))).isEmpty ∧
      (∀ t, k1.status t =
        if t ∈ ((k.scheduler.sleepingList.map SleepingThread.decreaseSleepTime).takeWhile
          (fun st => decide (st.sleepTime = 0))).map SleepingThread.thread
        then ThreadStatus.READY else k.status t) := by
  obtain ⟨k1, h1, h2, h3, h4, h5, h6⟩ := AlarmTicks_wake_ok
    (k.scheduler.sleepingList.map SleepingThread.decreaseSleepTime)
    { k with scheduler := { k.scheduler with
        AThreadWakeUp := false
        sleepingList := k.scheduler.sleepingList.map SleepingThread.decreaseSleepTime } }
    r hl hr rfl
  exact ⟨k1, h1, h2, h3, h4, by simpa using h5, h6⟩

/-- With nobody asleep a tick completes whatever the interrupt level, and
only clears the flag. -/
theorem AlarmTicks_nobody (k : Kernel) (hq : k.scheduler.sleepingList = []) :
    Scheduler.AlarmTicks k =
      .ok () { k with scheduler := { k.scheduler with AThreadWakeUp := false } } := by
  simp [Scheduler.AlarmTicks, hq, Scheduler.AlarmTicks_wake]

theorem runSleepOps_append (a b : List SleepOp) :
    ∀ k k1 : Kernel, runSleepOps k a = .ok () k1 →
      runSleepOps k (a ++ b) = runSleepOps k1 b := by
  induction a with
  | nil =>
    intro k k1 h
    simp only [runSleepOps, Outcome.ok.injEq, true_and] at h
    subst h; rfl
  | cons op ops ih =>
    intro k k1 h
    rw [List.cons_append]
    rw [runSleepOps] at h
    conv_lhs => rw [runSleepOps]
    cases hs : op.step k with
    | ok u k2 => rw [hs] at h; exact ih k2 k1 h
    | assertFailed k2 => rw [hs] at h; cases h
    | badPointer k2 => rw [hs] at h; cases h

theorem sleepQueue_concat (l : List SleepingThread) (st : SleepingThread) :
    sleepQueue (l ++ [st]) = SortedList_Insert SleepTime_cmp st (sleepQueue l) := by
  simp [sleepQueue, List.foldl_append]

theorem sleepQueue_perm (l : List SleepingThread) : (sleepQueue l).Perm l := by
  induction l using List.reverseRecOn with
  | nil => simp [sleepQueue]
  | append_singleton l t ih =>
    rw [sleepQueue_concat]
    exact (SortedList_Insert_perm _ _ _).trans
      ((List.Perm.cons t ih).trans (List.perm_append_singleton t l).symm)

theorem sleepQueue_sorted (l : List SleepingThread) :
    (sleepQueue l).Pairwise (fun a b => a.sleepTime ≤ b.sleepTime) := by
  induction l using List.reverseRecOn with
  | nil => simp [sleepQueue]
  | append_singleton l t ih =>
    rw [sleepQueue_concat]
    exact SortedList_Insert_sorted SleepTime_cmp (fun a => a.sleepTime) SleepTime_cmp_neg t _ ih

/-- The sleepers going to sleep one after the other: the run completes and
builds the sleeping list by sorted insertion; the ready list is not
touched. -/
theorem runSleepOps_requests (l : List SleepingThread) :
    ∀ k : Kernel, ∃ k1, runSleepOps k (l.map SleepingThread.request) = .ok () k1 ∧
      k1.scheduler.readyList = k.scheduler.readyList ∧
      k1.scheduler.sleepingList =
        l.foldl (fun acc st => SortedList_Insert SleepTime_cmp st acc) k.scheduler.sleepingList ∧
      (l ≠ [] → k1.level = IntStatus.IntOff) := by
  induction l with
  | nil => intro k; exact ⟨k, rfl, rfl, rfl, by simp⟩
  | cons st l ih =>
    intro k
    obtain ⟨k1, h1, h2, h3, h4⟩ := ih (Scheduler.GoSleep_toSleep k st.thread st.sleepTime).2
    refine ⟨k1, ?_, ?_, ?_, ?_⟩
    · simpa [runSleepOps, SleepingThread.request, SleepOp.step] using h1
    · rw [h2]; rfl
    · rw [h3]; rfl
    · intro _
      cases l with
      | nil =>
        simp only [List.map_nil, runSleepOps, Outcome.ok.injEq, true_and] at h1
        rw [← h1]; rfl
      | cons a l => exact h4 (by simp)

/-- In an ascending list whose counts are all at least `c`, the sleepers
with count `c` are at the head. -/
theorem sorted_takeWhile_dropWhile (c : Int) (l : List SleepingThread) :
    l.Pairwise (fun a b => a.sleepTime ≤ b.sleepTime) → (∀ e ∈ l, c ≤ e.sleepTime) →
      l.takeWhile (fun e => decide (e.sleepTime - c = 0)) =
        l.filter (fun e => decide (e.sleepTime ≤ c)) ∧
      l.dropWhile (fun e => decide (e.sleepTime - c = 0)) =
        l.filter (fun e => decide (c < e.sleepTime)) := by
  induction l with
  | nil => intro _ _; simp
  | cons x xs ih =>
    intro hs hc
    rw [List.pairwise_cons] at hs
    have hcx : c ≤ x.sleepTime := hc x (List.mem_cons_self _ _)
    by_cases hx : x.sleepTime = c
    · obtain ⟨i1, i2⟩ := ih hs.2 (fun e he => hc e (List.mem_cons_of_mem _ he))
      constructor
      · simp [List.takeWhile_cons, List.filter_cons, hx, i1]
      · simp [List.dropWhile_cons, List.filter_cons, hx, i2]
    · have hlt : c < x.sleepTime := lt_of_le_of_ne hcx (Ne.symm hx)
      have hne : ¬ x.sleepTime - c = 0 := by omega
      have hall : ∀ e ∈ x :: xs, c < e.sleepTime := by
        intro e he
        rcases List.mem_cons.1 he with rfl | he
        · exact hlt
        · exact lt_of_lt_of_le hlt (hs.1 e he)
      constructor
      · rw [List.takeWhile_cons]
        simp only [hne, decide_False, Bool.false_eq_true, if_false]
        symm
        rw [List.filter_eq_nil_iff]
        intro e he
        have := hall e he
        simp only [decide_eq_true_eq, not_le]
        exact this
      · rw [List.dropWhile_cons]
        simp only [hne, decide_False, Bool.false_eq_true, if_false]
        symm
        rw [List.filter_eq_self]
        intro e he
        simpa using hall e he

/-- In an ascending list the sleepers with count at most `c + 1` are those
with count at most `c` followed by those above `c` and at most `c + 1`. -/
theorem sorted_filter_succ (c : Int) (l : List SleepingThread) :
    l.Pairwise (fun a b => a.sleepTime ≤ b.sleepTime) →
      l.filter (fun e => decide (e.sleepTime ≤ c + 1)) =
        l.filter (fun e => decide (e.sleepTime ≤ c)) ++
          (l.filter (fun e => decide (c < e.sleepTime))).filter
            (fun e => decide (e.sleepTime ≤ c + 1)) := by
  induction l with
  | nil => intro _; simp
  | cons x xs ih =>
    intro hs
    rw [List.pairwise_cons] at hs
    by_cases hx : x.sleepTime ≤ c
    · have h1 : x.sleepTime ≤ c + 1 := by omega
      have h2 : ¬ c < x.sleepTime := by omega
      simp only [List.filter_cons, hx, h1, h2, decide_True, decide_False, if_true,
        Bool.false_eq_true, if_false, List.cons_append]
      rw [ih hs.2]
    · have hall : ∀ e ∈ x :: xs, c < e.sleepTime := by
        intro e he
        rcases List.mem_cons.1 he with rfl | he
        · omega
        · have := hs.1 e he; omega
      have e1 : (x :: xs).filter (fun e => decide (e.sleepTime ≤ c)) = [] := by
        rw [List.filter_eq_nil_iff]
        intro e he
        have := hall e he
        simp only [decide_eq_true_eq, not_le]
        exact this
      have e2 : (x :: xs).filter (fun e => decide (c < e.sleepTime)) = x :: xs := by
        rw [List.filter_eq_self]
        intro e he
        simpa using hall e he
      rw [e1, e2, List.nil_append]

theorem elapsed_zero (e : SleepingThread) : SleepingThread.elapsed 0 e = e := by
  simp [SleepingThread.elapsed]

theorem decrease_elapsed (n : Nat) (e : SleepingThread) (h : (n : Int) < e.sleepTime) :
    (SleepingThread.elapsed n e).decreaseSleepTime = SleepingThread.elapsed (n + 1) e := by
  have hne : ¬ (e.sleepTime - (n : Int) = INT_MIN) := by unfold INT_MIN; omega
  simp only [SleepingThread.elapsed, SleepingThread.decreaseSleepTime, hne, if_false,
    Nat.cast_add, Nat.cast_one, SleepingThread.mk.injEq, true_and]
  omega

/-- Ticks on an ascending sleeping list of positive counts, interrupts off:
after `n` ticks the list shows the sleepers with more than `n` ticks, each
with `n` ticks less, and the others have been made ready in list order. -/
theorem runSleepOps_ticks (Q : List SleepingThread) (r0 : ReadyList)
    (hs : Q.Pairwise (fun a b => a.sleepTime ≤ b.sleepTime))
    (hpos : ∀ e ∈ Q, 0 < e.sleepTime) :
    ∀ (n : Nat) (k : Kernel), k.level = IntStatus.IntOff →
      k.scheduler.readyList = some r0 → k.scheduler.sleepingList = Q →
      ∃ k1, runSleepOps k (List.replicate n SleepOp.alarmTicks) = .ok () k1 ∧
        k1.level = IntStatus.IntOff ∧
        k1.scheduler.sleepingList =
          (Q.filter (fun e => decide ((n : Int) < e.sleepTime))).map (SleepingThread.elapsed n) ∧
        k1.scheduler.readyList =
          some ((Q.filter (fun e => decide (e.sleepTime ≤ (n : Int)))).foldl
            (fun r st => r.Append st.thread) r0) ∧
        (∀ e ∈ Q, e.sleepTime ≤ (n : Int) → k1.status e.thread = ThreadStatus.READY) := by
  intro n
  induction n with
  | zero =>
    intro k hl hr hq
    refine ⟨k, rfl, hl, ?_, ?_, ?_⟩
    · have h1 : Q.filter (fun e => decide (((0 : Nat) : Int) < e.sleepTime)) = Q := by
        rw [List.filter_eq_self]
        intro e he
        simpa using hpos e he
      have h2 : Q.map (SleepingThread.elapsed 0) = Q := by
        conv_rhs => rw [← List.map_id Q]
        exact List.map_congr_left (fun e _ => elapsed_zero e)
      rw [h1, h2, hq]
    · have h1 : Q.filter (fun e => decide (e.sleepTime ≤ ((0 : Nat) : Int))) = [] := by
        rw [List.filter_eq_nil_iff]
        intro e he
        have := hpos e he
        simp only [Nat.cast_zero, decide_eq_true_eq, not_le]
        exact this
      rw [h1]
      simpa using hr
    · intro e he h0
      have := hpos e he
      simp only [Nat.cast_zero] at h0
      omega
  | succ n ih =>
    intro k hl hr hq
    obtain ⟨kn, hrun, hln, hqn, hrn, hsn⟩ := ih k hl hr hq
    obtain ⟨k1, h1, h2, h3, h4, -, h6⟩ := AlarmTicks_ok kn _ hln hrn
    have hL : (Q.filter (fun e => decide ((n : Int) < e.sleepTime))).Pairwise
        (fun a b => a.sleepTime ≤ b.sleepTime) := hs.sublist (List.filter_sublist _)
    have hLc : ∀ e ∈ Q.filter (fun e => decide ((n : Int) < e.sleepTime)),
        (n : Int) + 1 ≤ e.sleepTime := by
      intro e he
      have := (List.mem_filter.1 he).2
      simp only [decide_eq_true_eq] at this
      omega
    obtain ⟨t1, t2⟩ := sorted_takeWhile_dropWhile ((n : Int) + 1) _ hL hLc
    have hmap : kn.scheduler.sleepingList.map SleepingThread.decreaseSleepTime =
        (Q.filter (fun e => decide ((n : Int) < e.sleepTime))).map
          (SleepingThread.elapsed (n + 1)) := by
      rw [hqn, List.map_map]
      exact List.map_congr_left (fun e he => decrease_elapsed n e
        (by simpa using (List.mem_filter.1 he).2))
    have hp : ((fun st : SleepingThread => decide (st.sleepTime = 0)) ∘
        SleepingThread.elapsed (n + 1)) =
        fun e => decide (e.sleepTime - ((n : Int) + 1) = 0) := by
      funext e
      simp [SleepingThread.elapsed]
    have hff : (Q.filter (fun e => decide ((n : Int) < e.sleepTime))).filter
        (fun e => decide ((n : Int) + 1 < e.sleepTime)) =
        Q.filter (fun e => decide (((n + 1 : Nat) : Int) < e.sleepTime)) := by
      rw [List.filter_filter]
      apply List.filter_congr
      intro e _
      simp only [Nat.cast_add, Nat.cast_one, Bool.and_eq_true, decide_eq_true_eq,
        Bool.decide_and, Bool.decide_eq_true]
      by_cases hc : (n : Int) + 1 < e.sleepTime
      · have : (n : Int) < e.sleepTime := by omega
        simp [hc, this]
      · simp [hc]
    refine ⟨k1, ?_, h2, ?_, ?_, ?_⟩
    · rw [List.replicate_succ', runSleepOps_append _ _ k kn hrun]
      simp [runSleepOps, SleepOp.step, h1]
    · rw [h4, hmap, List.dropWhile_map, hp, t2, hff]
    · rw [h3, hmap, List.takeWhile_map, hp, t1, List.foldl_map]
      have hfun : (fun (x : ReadyList) (y : SleepingThread) =>
          x.Append (SleepingThread.elapsed (n + 1) y).thread) =
          fun r st => r.Append st.thread := rfl
      rw [hfun, ← List.foldl_append]
      have hsucc := sorted_filter_succ (n : Int) Q hs
      have hcast : (fun e : SleepingThread => decide (e.sleepTime ≤ ((n + 1 : Nat) : Int))) =
          fun e => decide (e.sleepTime ≤ (n : Int) + 1) := by
        funext e; simp
      rw [hcast, hsucc]
    · intro e he hle
      rw [h6]
      by_cases hold : e.sleepTime ≤ (n : Int)
      · rw [hsn e he hold]; simp
      · have hmem : e ∈ (Q.filter (fun e => decide ((n : Int) < e.sleepTime))).filter
            (fun e => decide (e.sleepTime ≤ (n : Int) + 1)) := by
          rw [List.mem_filter, List.mem_filter]
          refine ⟨⟨he, ?_⟩, ?_⟩
          · simp only [decide_eq_true_eq]; omega
          · simp only [decide_eq_true_eq]
            have : ((n + 1 : Nat) : Int) = (n : Int) + 1 := by simp
            omega
        have hin : e.thread ∈
            ((kn.scheduler.sleepingList.map SleepingThread.decreaseSleepTime).takeWhile
              (fun st => decide (st.sleepTime = 0))).map SleepingThread.thread := by
          rw [hmap, List.takeWhile_map, hp, t1, List.map_map]
          exact List.mem_map.2 ⟨e, hmem, rfl⟩
        rw [if_pos hin]

/-- Ticks with nobody asleep: the run completes whatever the interrupt
level and touches neither list. -/
theorem runSleepOps_ticks_nobody (n : Nat) :
    ∀ k : Kernel, k.scheduler.sleepingList = [] →
      ∃ k1, runSleepOps k (List.replicate n SleepOp.alarmTicks) = .ok () k1 ∧
        k1.scheduler.sleepingList = [] ∧ k1.scheduler.readyList = k.scheduler.readyList := by
  induction n with
  | zero => intro k hq; exact ⟨k, rfl, hq, rfl⟩
  | succ n ih =>
    intro k hq
    obtain ⟨k1, h1, h2, h3⟩ := ih
      { k with scheduler := { k.scheduler with AThreadWakeUp := false } } hq
    refine ⟨k1, ?_, h2, h3⟩
    simp only [List.replicate_succ, runSleepOps, SleepOp.step, AlarmTicks_nobody k hq]
    exact h1

theorem ReadyList_Append_compare (r : ReadyList) (t : Thread) :
    (r.Append t).compare = r.compare := by
  unfold ReadyList.Append
  split <;> simp_all

/-- Threads appended one after the other are all on the ready list. -/
theorem foldl_Append_perm (l : List SleepingThread) :
    ∀ r : ReadyList, (l.foldl (fun r st => r.Append st.thread) r).items.Perm
      (r.items ++ l.map SleepingThread.thread) := by
  induction l with
  | nil => intro r; simp
  | cons e l ih =>
    intro r
    simp only [List.foldl_cons, List.map_cons]
    refine (ih (r.Append e.thread)).trans ?_
    have := (ReadyList_Append_perm r e.thread).append_right (l.map SleepingThread.thread)
    simpa using this

/-- On a plain list and on a list sorted by FCFS_cmp, threads appended one
after the other sit on the ready list in the order of the calls. -/
theorem foldl_Append_fifo (l : List SleepingThread) :
    ∀ r : ReadyList, (r.compare = none ∨ r.compare = some FCFS_cmp) →
      (l.foldl (fun r st => r.Append st.thread) r).items =
        r.items ++ l.map SleepingThread.thread := by
  induction l with
  | nil => intro r _; simp
  | cons e l ih =>
    intro r hr
    simp only [List.foldl_cons, List.map_cons]
    rw [ih (r.Append e.thread) (by rw [ReadyList_Append_compare]; exact hr)]
    have : (r.Append e.thread).items = r.items ++ [e.thread] := by
      rcases hr with hr | hr
      · simp [ReadyList.Append, hr, List_Append]
      · simp [ReadyList.Append, hr, SortedList_Insert_tail FCFS_cmp FCFS_cmp_not_neg]
    rw [this]; simp

/-- C5. Tick accounting. On a freshly constructed scheduler of an
implemented policy, let sleepers with positive durations on distinct threads
go to sleep one after the other, then let the timer tick n times. The run
completes. The sleeping list built by the GoSleep calls is a rearrangement
of the sleepers in ascending order of duration; after the n ticks the
sleeping list holds exactly its entries of duration d above n, each showing
d - n, and ReadyToRun has been called on exactly the threads of its entries
of duration at most n, in the order of that list, that is in the order in
which their count reached zero: the ready list is the empty list with these
threads appended in that order (so it is exactly that sequence under
Round-Robin and FCFS), and each of them has status READY. -/
theorem tick_accounting (k0 : Kernel) (sType : SchedulerType)
    (entries : List SleepingThread) (n : Nat)
    (hty : sType ≠ SchedulerType.SJF)
    (hpos : ∀ e ∈ entries, 0 < e.sleepTime)
    (_hd : (entries.map SleepingThread.thread).Nodup) :
    ∃ k r0, runSleepOps { k0 with scheduler := Scheduler.Scheduler sType }
        (entries.map SleepingThread.request ++ List.replicate n SleepOp.alarmTicks) = .ok () k ∧
      (Scheduler.Scheduler sType).readyList = some r0 ∧ r0.items = [] ∧
      (sleepQueue entries).Perm entries ∧
      (sleepQueue entries).Pairwise (fun a b => a.sleepTime ≤ b.sleepTime) ∧
      k.scheduler.sleepingList =
        ((sleepQueue entries).filter (fun e => decide ((n : Int) < e.sleepTime))).map
          (SleepingThread.elapsed n) ∧
      k.scheduler.readyList =
        some (((sleepQueue entries).filter (fun e => decide (e.sleepTime ≤ (n : Int)))).foldl
          (fun r st => r.Append st.thread) r0) ∧
      k.readyItems.Perm
        (((sleepQueue entries).filter (fun e => decide (e.sleepTime ≤ (n : Int)))).map
          SleepingThread.thread) ∧
      (sType ≠ SchedulerType.Priority →
        k.readyItems =
          ((sleepQueue entries).filter (fun e => decide (e.sleepTime ≤ (n : Int)))).map
            SleepingThread.thread) ∧
      (∀ e ∈ entries, e.sleepTime ≤ (n : Int) → k.status e.thread = ThreadStatus.READY) := by
  obtain ⟨r0, hr0, hi0, hc0⟩ : ∃ r0, (Scheduler.Scheduler sType).readyList = some r0 ∧
      r0.items = [] ∧
      (sType ≠ SchedulerType.Priority → r0.compare = none ∨ r0.compare = some FCFS_cmp) := by
    cases sType with
    | RR => exact ⟨_, rfl, rfl, fun _ => Or.inl rfl⟩
    | SJF => exact absurd rfl hty
    | Priority => exact ⟨_, rfl, rfl, fun h => absurd rfl h⟩
    | FCFS => exact ⟨_, rfl, rfl, fun _ => Or.inr rfl⟩
  obtain ⟨ks, hs1, hs2, hs3, hs4⟩ := runSleepOps_requests entries
    { k0 with scheduler := Scheduler.Scheduler sType }
  have hq : ks.scheduler.sleepingList = sleepQueue entries := by
    rw [hs3]; rfl
  have hrs : ks.scheduler.readyList = some r0 := by rw [hs2]; exact hr0
  have hposQ : ∀ e ∈ sleepQueue entries, 0 < e.sleepTime :=
    fun e he => hpos e ((sleepQueue_perm entries).mem_iff.1 he)
  have hfin : ∀ k : Kernel,
      k.scheduler.sleepingList =
        ((sleepQueue entries).filter (fun e => decide ((n : Int) < e.sleepTime))).map
          (SleepingThread.elapsed n) →
      k.scheduler.readyList =
        some (((sleepQueue entries).filter (fun e => decide (e.sleepTime ≤ (n : Int)))).foldl
          (fun r st => r.Append st.thread) r0) →
      (∀ e ∈ entries, e.sleepTime ≤ (n : Int) → k.status e.thread = ThreadStatus.READY) →
      runSleepOps { k0 with scheduler := Scheduler.Scheduler sType }
        (entries.map SleepingThread.request ++ List.replicate n SleepOp.alarmTicks) = .ok () k →
      ∃ k r0, runSleepOps { k0 with scheduler := Scheduler.Scheduler sType }
          (entries.map SleepingThread.request ++ List.replicate n SleepOp.alarmTicks) = .ok () k ∧
        (Scheduler.Scheduler sType).readyList = some r0 ∧ r0.items = [] ∧
        (sleepQueue entries).Perm entries ∧
        (sleepQueue entries).Pairwise (fun a b => a.sleepTime ≤ b.sleepTime) ∧
        k.scheduler.sleepingList =
          ((sleepQueue entries).filter (fun e => decide ((n : Int) < e.sleepTime))).map
            (SleepingThread.elapsed n) ∧
        k.scheduler.readyList =
          some (((sleepQueue entries).filter (fun e => decide (e.sleepTime ≤ (n : Int)))).foldl
            (fun r st => r.Append st.thread) r0) ∧
        k.readyItems.Perm
          (((sleepQueue entries).filter (fun e => decide (e.sleepTime ≤ (n : Int)))).map
            SleepingThread.thread) ∧
        (sType ≠ SchedulerType.Priority →
          k.readyItems =
            ((sleepQueue entries).filter (fun e => decide (e.sleepTime ≤ (n : Int)))).map
              SleepingThread.thread) ∧
        (∀ e ∈ entries, e.sleepTime ≤ (n : Int) → k.status e.thread = ThreadStatus.READY) := by
    intro k hsl hrl hst hrun
    refine ⟨k, r0, hrun, hr0, hi0, sleepQueue_perm entries, sleepQueue_sorted entries,
      hsl, hrl, ?_, ?_, hst⟩
    · have := foldl_Append_perm
        ((sleepQueue entries).filter (fun e => decide (e.sleepTime ≤ (n : Int)))) r0
      simpa [Kernel.readyItems, hrl, hi0] using this
    · intro hne
      have := foldl_Append_fifo
        ((sleepQueue entries).filter (fun e => decide (e.sleepTime ≤ (n : Int)))) r0 (hc0 hne)
      simpa [Kernel.readyItems, hrl, hi0] using this
  by_cases hne : entries = []
  · subst hne
    have hks : ks.scheduler.sleepingList = [] := by simpa [sleepQueue] using hq
    obtain ⟨k, h1, h2, h3⟩ := runSleepOps_ticks_nobody n ks hks
    refine hfin k ?_ ?_ ?_ ?_
    · simp [sleepQueue, h2]
    · simp [sleepQueue, h3, hrs]
    · intro e he; simp at he
    · rw [runSleepOps_append _ _ _ ks hs1]; exact h1
  · obtain ⟨k, h1, -, h3, h4, h5⟩ := runSleepOps_ticks (sleepQueue entries) r0
      (sleepQueue_sorted entries) hposQ n ks (hs4 hne) hrs hq
    refine hfin k h3 h4 ?_ ?_
    · intro e he hle
      exact h5 e ((sleepQueue_perm entries).mem_iff.2 he) hle
    · rw [runSleepOps_append _ _ _ ks hs1]; exact h1

/-- C5, witness. Sleepers enqueued with 3, 5 and 7 ticks in that order:
after 3 ticks exactly the thread with 3 is on the ready list and the others
show 2 and 4; after 7 ticks all three are on the ready list in the order
3, 5, 7 and the sleeping list is empty. The theorem applies to this run. -/
theorem tick_accounting_witness :
    ((runSleepOps (bootedOff SchedulerType.RR)
        (([⟨⟨1, 0⟩, 3⟩, ⟨⟨2, 0⟩, 5⟩, ⟨⟨3, 0⟩, 7⟩] : List SleepingThread).map
          SleepingThread.request ++ List.replicate 3 SleepOp.alarmTicks)).state.readyItems
        = [⟨1, 0⟩] ∧
      (runSleepOps (bootedOff SchedulerType.RR)
        (([⟨⟨1, 0⟩, 3⟩, ⟨⟨2, 0⟩, 5⟩, ⟨⟨3, 0⟩, 7⟩] : List SleepingThread).map
          SleepingThread.request ++
          List.replicate 3 SleepOp.alarmTicks)).state.scheduler.sleepingList
        = [⟨⟨2, 0⟩, 2⟩, ⟨⟨3, 0⟩, 4⟩] ∧
      (runSleepOps (bootedOff SchedulerType.RR)
        (([⟨⟨1, 0⟩, 3⟩, ⟨⟨2, 0⟩, 5⟩, ⟨⟨3, 0⟩, 7⟩] : List SleepingThread).map
          SleepingThread.request ++ List.replicate 7 SleepOp.alarmTicks)).state.readyItems
        = [⟨1, 0⟩, ⟨2, 0⟩, ⟨3, 0⟩] ∧
      (runSleepOps (bootedOff SchedulerType.RR)
        (([⟨⟨1, 0⟩, 3⟩, ⟨⟨2, 0⟩, 5⟩, ⟨⟨3, 0⟩, 7⟩] : List SleepingThread).map
          SleepingThread.request ++
          List.replicate 7 SleepOp.alarmTicks)).state.scheduler.sleepingList = []) ∧
    SchedulerType.RR ≠ SchedulerType.SJF ∧
    (∀ e ∈ ([⟨⟨1, 0⟩, 3⟩, ⟨⟨2, 0⟩, 5⟩, ⟨⟨3, 0⟩, 7⟩] : List SleepingThread), 0 < e.sleepTime) ∧
    (([⟨⟨1, 0⟩, 3⟩, ⟨⟨2, 0⟩, 5⟩, ⟨⟨3, 0⟩, 7⟩] : List SleepingThread).map
      SleepingThread.thread).Nodup ∧
    ∃ k r0, runSleepOps
        { bootedOff SchedulerType.RR with scheduler := Scheduler.Scheduler SchedulerType.RR }
        (([⟨⟨1, 0⟩, 3⟩, ⟨⟨2, 0⟩, 5⟩, ⟨⟨3, 0⟩, 7⟩] : List SleepingThread).map
          SleepingThread.request ++ List.replicate 3 SleepOp.alarmTicks) = .ok () k ∧
      (Scheduler.Scheduler SchedulerType.RR).readyList = some r0 ∧ r0.items = [] ∧
      (sleepQueue [⟨⟨1, 0⟩, 3⟩, ⟨⟨2, 0⟩, 5⟩, ⟨⟨3, 0⟩, 7⟩]).Perm
        [⟨⟨1, 0⟩, 3⟩, ⟨⟨2, 0⟩, 5⟩, ⟨⟨3, 0⟩, 7⟩] ∧
      (sleepQueue [⟨⟨1, 0⟩, 3⟩, ⟨⟨2, 0⟩, 5⟩, ⟨⟨3, 0⟩, 7⟩]).Pairwise
        (fun a b => a.sleepTime ≤ b.sleepTime) ∧
      k.scheduler.sleepingList =
        ((sleepQueue [⟨⟨1, 0⟩, 3⟩, ⟨⟨2, 0⟩, 5⟩, ⟨⟨3, 0⟩, 7⟩]).filter
          (fun e => decide (((3 : Nat) : Int) < e.sleepTime))).map (SleepingThread.elapsed 3) ∧
      k.scheduler.readyList =
        some (((sleepQueue [⟨⟨1, 0⟩, 3⟩, ⟨⟨2, 0⟩, 5⟩, ⟨⟨3, 0⟩, 7⟩]).filter
          (fun e => decide (e.sleepTime ≤ ((3 : Nat) : Int)))).foldl
          (fun r st => r.Append st.thread) r0) ∧
      k.readyItems.Perm
        (((sleepQueue [⟨⟨1, 0⟩, 3⟩, ⟨⟨2, 0⟩, 5⟩, ⟨⟨3, 0⟩, 7⟩]).filter
          (fun e => decide (e.sleepTime ≤ ((3 : Nat) : Int)))).map SleepingThread.thread) ∧
      (SchedulerType.RR ≠ SchedulerType.Priority →
        k.readyItems =
          ((sleepQueue [⟨⟨1, 0⟩, 3⟩, ⟨⟨2, 0⟩, 5⟩, ⟨⟨3, 0⟩, 7⟩]).filter
            (fun e => decide (e.sleepTime ≤ ((3 : Nat) : Int)))).map SleepingThread.thread) ∧
      (∀ e ∈ ([⟨⟨1, 0⟩, 3⟩, ⟨⟨2, 0⟩, 5⟩, ⟨⟨3, 0⟩, 7⟩] : List SleepingThread),
        e.sleepTime ≤ ((3 : Nat) : Int) → k.status e.thread = ThreadStatus.READY) :=
  ⟨by decide, by decide, by decide, by decide,
    tick_accounting (bootedOff SchedulerType.RR) SchedulerType.RR
      [⟨⟨1, 0⟩, 3⟩, ⟨⟨2, 0⟩, 5⟩, ⟨⟨3, 0⟩, 7⟩] 3 (by decide) (by decide) (by decide)⟩

/-! ## The dispatcher -/

/-- C6. Pending-destruction exclusivity. Whenever the slot toBeDestroyed is
occupied, Run with finishing set ends in a failed assertion, whatever the
thread to run, the context switch and the interrupt level (so in particular
with interrupts off), and the state at the abort is the state at the call:
the slot still holds its occupant. Consequently a Run with finishing set
that reaches the context switch found the slot empty and leaves in it the
one thread that was running. -/
theorem run_finishing_slot_occupied (SWITCH : Kernel → Kernel) (k : Kernel)
    (nextThread : Option Thread) (t : Thread)
    (hslot : k.scheduler.toBeDestroyed = some t) :
    Scheduler.Run SWITCH k nextThread true = .assertFailed k ∧
    (Scheduler.Run SWITCH k nextThread true).state.scheduler.toBeDestroyed = some t ∧
    (∀ (k0 k1 : Kernel) (nt : Option Thread),
      Scheduler.Run_toSwitch k0 nt true = .ok () k1 →
        k0.scheduler.toBeDestroyed = none ∧
        k1.scheduler.toBeDestroyed = k0.currentThread) := by
  have h1 : Scheduler.Run_toSwitch k nextThread true = .assertFailed k := by
    unfold Scheduler.Run_toSwitch
    by_cases hl : k.level = IntStatus.IntOff <;> simp [hl, hslot]
  have h2 : Scheduler.Run SWITCH k nextThread true = .assertFailed k := by
    simp [Scheduler.Run, h1]
  refine ⟨h2, by rw [h2]; exact hslot, ?_⟩
  intro k0 k1 nt hrun
  unfold Scheduler.Run_toSwitch at hrun
  by_cases hl : k0.level = IntStatus.IntOff
  · cases hs : k0.scheduler.toBeDestroyed with
    | some u => simp [hl, hs] at hrun
    | none =>
      cases hc : k0.currentThread with
      | none => simp [hl, hs, hc] at hrun
      | some old =>
        cases nt with
        | none => simp [hl, hs, hc] at hrun
        | some n =>
          simp only [hl, hs, hc, ne_eq, not_true_eq_false, ite_false, and_false,
            ite_true, Outcome.ok.injEq, true_and] at hrun
          subst hrun
          simp [Kernel.setStatus, hc]
  · simp [hl] at hrun

/-- C6, witness. With thread 7 waiting in the slot, a finishing Run to
thread 1 with interrupts off aborts on the assertion and thread 7 is still
in the slot; and the finishing Run of the main thread right after boot,
which reaches the context switch, started from an empty slot. -/
theorem run_finishing_slot_occupied_witness :
    bootedSlotTaken.level = IntStatus.IntOff ∧
    bootedSlotTaken.scheduler.toBeDestroyed = some ⟨7, 0⟩ ∧
    Scheduler.Run id bootedSlotTaken (some ⟨1, 0⟩) true = .assertFailed bootedSlotTaken ∧
    (Scheduler.Run id bootedSlotTaken (some ⟨1, 0⟩) true).state.scheduler.toBeDestroyed
      = some ⟨7, 0⟩ ∧
    (bootedOff SchedulerType.RR).scheduler.toBeDestroyed = none ∧
    (Scheduler.Run_toSwitch (bootedOff SchedulerType.RR) (some ⟨1, 0⟩)
      true).state.scheduler.toBeDestroyed = (bootedOff SchedulerType.RR).currentThread :=
  ⟨rfl, rfl,
   (run_finishing_slot_occupied id bootedSlotTaken (some ⟨1, 0⟩) ⟨7, 0⟩ rfl).1,
   (run_finishing_slot_occupied id bootedSlotTaken (some ⟨1, 0⟩) ⟨7, 0⟩ rfl).2.1,
   ((run_finishing_slot_occupied id bootedSlotTaken (some ⟨1, 0⟩) ⟨7, 0⟩ rfl).2.2
      (bootedOff SchedulerType.RR)
      (Scheduler.Run_toSwitch (bootedOff SchedulerType.RR) (some ⟨1, 0⟩) true).state
      (some ⟨1, 0⟩) rfl).1,
   ((run_finishing_slot_occupied id bootedSlotTaken (some ⟨1, 0⟩) ⟨7, 0⟩ rfl).2.2
      (bootedOff SchedulerType.RR)
      (Scheduler.Run_toSwitch (bootedOff SchedulerType.RR) (some ⟨1, 0⟩) true).state
      (some ⟨1, 0⟩) rfl).2⟩

/-- C7. Effect of Run up to the handoff. For a call of Run with interrupts
off, a thread to run, a running thread and, when finishing is set, an empty
slot toBeDestroyed, the part of Run before SWITCH completes, and at the
point where SWITCH is entered the current thread is nextThread, its status
is RUNNING, the slot holds the previously running thread when finishing is
set and is unchanged otherwise, no thread has been destroyed since the call,
and the ready list and the sleeping list are unchanged. -/
theorem run_effect_at_handoff (k : Kernel) (nextThread oldThread : Thread) (finishing : Bool)
    (hl : k.level = IntStatus.IntOff)
    (hcur : k.currentThread = some oldThread)
    (hslot : finishing = true → k.scheduler.toBeDestroyed = none) :
    ∃ k1, Scheduler.Run_toSwitch k (some nextThread) finishing = .ok () k1 ∧
      k1.currentThread = some nextThread ∧
      k1.status nextThread = ThreadStatus.RUNNING ∧
      (finishing = true → k1.scheduler.toBeDestroyed = some oldThread) ∧
      (finishing = false → k1.scheduler.toBeDestroyed = k.scheduler.toBeDestroyed) ∧
      k1.destroyed = k.destroyed ∧
      k1.scheduler.readyList = k.scheduler.readyList ∧
      k1.scheduler.sleepingList = k.scheduler.sleepingList ∧
      k1.level = IntStatus.IntOff ∧
      (∀ t, t ≠ nextThread → k1.status t = k.status t) := by
  cases finishing with
  | true =>
    have hs := hslot rfl
    have hrun : Scheduler.Run_toSwitch k (some nextThread) true =
        .ok () (Kernel.setStatus
          { k with
            currentThread := some nextThread
            scheduler := { k.scheduler with toBeDestroyed := some oldThread } }
          nextThread ThreadStatus.RUNNING) := by
      simp [Scheduler.Run_toSwitch, hl, hs, hcur]
    refine ⟨_, hrun, ?_⟩
    simp [Kernel.setStatus, hl]
    intro t ht
    exact Function.update_noteq ht _ _
  | false =>
    have hrun : Scheduler.Run_toSwitch k (some nextThread) false =
        .ok () (Kernel.setStatus { k with currentThread := some nextThread }
          nextThread ThreadStatus.RUNNING) := by
      simp [Scheduler.Run_toSwitch, hl, hcur]
    refine ⟨_, hrun, ?_⟩
    simp [Kernel.setStatus, hl]
    intro t ht
    exact Function.update_noteq ht _ _

/-- C7, witness. Right after boot, with interrupts off and the slot empty,
the main thread (thread 0) finishes and hands the processor to thread 1. -/
theorem run_effect_at_handoff_witness :
    (bootedOff SchedulerType.RR).level = IntStatus.IntOff ∧
    (bootedOff SchedulerType.RR).currentThread = some ⟨0, 0⟩ ∧
    (bootedOff SchedulerType.RR).scheduler.toBeDestroyed = none ∧
    ∃ k1, Scheduler.Run_toSwitch (bootedOff SchedulerType.RR) (some ⟨1, 0⟩) true = .ok () k1 ∧
      k1.currentThread = some ⟨1, 0⟩ ∧
      k1.status ⟨1, 0⟩ = ThreadStatus.RUNNING ∧
      (true = true → k1.scheduler.toBeDestroyed = some ⟨0, 0⟩) ∧
      (true = false →
        k1.scheduler.toBeDestroyed = (bootedOff SchedulerType.RR).scheduler.toBeDestroyed) ∧
      k1.destroyed = (bootedOff SchedulerType.RR).destroyed ∧
      k1.scheduler.readyList = (bootedOff SchedulerType.RR).scheduler.readyList ∧
      k1.scheduler.sleepingList = (bootedOff SchedulerType.RR).scheduler.sleepingList ∧
      k1.level = IntStatus.IntOff ∧
      (∀ t, t ≠ (⟨1, 0⟩ : Thread) → k1.status t = (bootedOff SchedulerType.RR).status t) :=
  ⟨rfl, rfl, rfl,
    run_effect_at_handoff (bootedOff SchedulerType.RR) ⟨1, 0⟩ ⟨0, 0⟩ true rfl rfl (fun _ => rfl)⟩

/-- C8. CheckToBeDestroyed. In every state, after the call the slot
toBeDestroyed is empty; when the slot held a thread exactly that thread has
been destroyed, and when it was empty nothing has; the ready list, the
sleeping list, the current thread, the interrupt level and every status are
unchanged; and a second call changes nothing. The part of Run after SWITCH
makes this call: resumed with interrupts off it completes and leaves the
slot empty, and every Run that returns does so with the slot empty. -/
theorem checkToBeDestroyed_clears_slot (k : Kernel) :
    (Scheduler.CheckToBeDestroyed k).scheduler.toBeDestroyed = none ∧
    (∀ t, k.scheduler.toBeDestroyed = some t →
      (Scheduler.CheckToBeDestroyed k).destroyed = k.destroyed ++ [t]) ∧
    (k.scheduler.toBeDestroyed = none →
      (Scheduler.CheckToBeDestroyed k).destroyed = k.destroyed) ∧
    (Scheduler.CheckToBeDestroyed k).scheduler.readyList = k.scheduler.readyList ∧
    (Scheduler.CheckToBeDestroyed k).scheduler.sleepingList = k.scheduler.sleepingList ∧
    (Scheduler.CheckToBeDestroyed k).currentThread = k.currentThread ∧
    (Scheduler.CheckToBeDestroyed k).level = k.level ∧
    (Scheduler.CheckToBeDestroyed k).status = k.status ∧
    Scheduler.CheckToBeDestroyed (Scheduler.CheckToBeDestroyed k) =
      Scheduler.CheckToBeDestroyed k ∧
    (k.level = IntStatus.IntOff →
      Scheduler.Run_resumed k = .ok () (Scheduler.CheckToBeDestroyed k)) ∧
    (∀ (SWITCH : Kernel → Kernel) (nextThread : Option Thread) (finishing : Bool) (k2 : Kernel),
      Scheduler.Run SWITCH k nextThread finishing = .ok () k2 →
        k2.scheduler.toBeDestroyed = none) := by
  have hclear : ∀ k : Kernel, (Scheduler.CheckToBeDestroyed k).scheduler.toBeDestroyed = none := by
    intro k
    unfold Scheduler.CheckToBeDestroyed
    cases h : k.scheduler.toBeDestroyed <;> simp [h]
  have hidem : ∀ k : Kernel, k.scheduler.toBeDestroyed = none →
      Scheduler.CheckToBeDestroyed k = k := by
    intro k h
    simp [Scheduler.CheckToBeDestroyed, h]
  refine ⟨hclear k, ?_, ?_, ?_, ?_, ?_, ?_, ?_, hidem _ (hclear k), ?_, ?_⟩
  · intro t ht; simp [Scheduler.CheckToBeDestroyed, ht]
  · intro h; rw [hidem k h]
  · unfold Scheduler.CheckToBeDestroyed
    cases h : k.scheduler.toBeDestroyed <;> simp
  · unfold Scheduler.CheckToBeDestroyed
    cases h : k.scheduler.toBeDestroyed <;> simp
  · unfold Scheduler.CheckToBeDestroyed
    cases h : k.scheduler.toBeDestroyed <;> simp
  · unfold Scheduler.CheckToBeDestroyed
    cases h : k.scheduler.toBeDestroyed <;> simp
  · unfold Scheduler.CheckToBeDestroyed
    cases h : k.scheduler.toBeDestroyed <;> simp
  · intro hl; simp [Scheduler.Run_resumed, hl]
  · intro SWITCH nextThread finishing k2 hrun
    unfold Scheduler.Run at hrun
    cases h1 : Scheduler.Run_toSwitch k nextThread finishing with
    | ok u k1 =>
      rw [h1] at hrun
      simp only [Scheduler.Run_resumed] at hrun
      by_cases hl : (SWITCH k1).level = IntStatus.IntOff
      · simp only [hl, ne_eq, not_true_eq_false, ite_false, Outcome.ok.injEq, true_and] at hrun
        rw [← hrun]; exact hclear _
      · simp [hl] at hrun
    | assertFailed k1 => rw [h1] at hrun; cases hrun
    | badPointer k1 => rw [h1] at hrun; cases hrun

/-- C8, witness. Thread 7 waits in the slot, interrupts are off: the call
destroys thread 7 and empties the slot, and so does the tail of Run when it
is resumed in that state; the finishing Run of the main thread to thread 1,
with a context switch that gives the processor back at once, returns with
the slot empty and the main thread destroyed. -/
theorem checkToBeDestroyed_clears_slot_witness :
    (Scheduler.CheckToBeDestroyed bootedSlotTaken).scheduler.toBeDestroyed = none ∧
    (Scheduler.CheckToBeDestroyed bootedSlotTaken).destroyed
      = bootedSlotTaken.destroyed ++ [⟨7, 0⟩] ∧
    Scheduler.Run_resumed bootedSlotTaken
      = .ok () (Scheduler.CheckToBeDestroyed bootedSlotTaken) ∧
    (Scheduler.Run id (bootedOff SchedulerType.RR) (some ⟨1, 0⟩) true).isOk = true ∧
    (Scheduler.Run id (bootedOff SchedulerType.RR) (some ⟨1, 0⟩) true).state.destroyed
      = [⟨0, 0⟩] ∧
    (Scheduler.Run id (bootedOff SchedulerType.RR) (some ⟨1, 0⟩)
      true).state.scheduler.toBeDestroyed = none :=
  ⟨(checkToBeDestroyed_clears_slot bootedSlotTaken).1,
   (checkToBeDestroyed_clears_slot bootedSlotTaken).2.1 ⟨7, 0⟩ rfl,
   (checkToBeDestroyed_clears_slot bootedSlotTaken).2.2.2.2.2.2.2.2.2.1 rfl,
   by decide, by decide,
   (checkToBeDestroyed_clears_slot (bootedOff SchedulerType.RR)).2.2.2.2.2.2.2.2.2.2 id
     (some ⟨1, 0⟩) true
     (Scheduler.Run id (bootedOff SchedulerType.RR) (some ⟨1, 0⟩) true).state rfl⟩

/-! ## The wake-up flag -/

/-- C9. Wake-up flag. In every state, however AlarmTicks ends, the
decremented sleeping list splits into the sleepers taken off its head, all
with count zero, and the sleeping list left behind; the threads of the
sleepers taken off are what the ready list has gained; and the flag
AThreadWakeUp is true afterwards exactly when at least one sleeper was
moved, whatever the flag was before. With interrupts off and a ready list
in place the call completes. -/
theorem alarmTicks_flag_iff_woken (k : Kernel) :
    ∃ woken : List SleepingThread,
      k.scheduler.sleepingList.map SleepingThread.decreaseSleepTime =
        woken ++ (Scheduler.AlarmTicks k).state.scheduler.sleepingList ∧
      (∀ st ∈ woken, st.sleepTime = 0) ∧
      (Scheduler.AlarmTicks k).state.readyItems.Perm
        (k.readyItems ++ woken.map SleepingThread.thread) ∧
      ((Scheduler.AlarmTicks k).state.scheduler.AThreadWakeUp = true ↔ woken ≠ []) ∧
      (k.level = IntStatus.IntOff → k.scheduler.readyList ≠ none →
        (Scheduler.AlarmTicks k).isOk = true) := by
  obtain ⟨woken, hq, hz, hp, hf⟩ := AlarmTicks_wake_moves
    (k.scheduler.sleepingList.map SleepingThread.decreaseSleepTime)
    { k with scheduler := { k.scheduler with
        AThreadWakeUp := false
        sleepingList := k.scheduler.sleepingList.map SleepingThread.decreaseSleepTime } } rfl
  refine ⟨woken, hq, hz, hp, ?_, ?_⟩
  · have hf2 : (Scheduler.AlarmTicks k).state.scheduler.AThreadWakeUp = !woken.isEmpty := by
      simpa using hf
    rw [hf2]
    cases woken <;> simp
  · intro hl hr
    cases hrl : k.scheduler.readyList with
    | none => exact absurd hrl hr
    | some r =>
      obtain ⟨k1, h1, -⟩ := AlarmTicks_ok k r hl hrl
      rw [h1]; rfl

/-- C9, witness. With the flag left true by an earlier tick and one sleeper
with two ticks to go, a tick wakes nobody and leaves the flag false; with
one sleeper on its last tick, the tick completes, moves its thread to the
ready list and sets the flag. -/
theorem alarmTicks_flag_iff_woken_witness :
    (Scheduler.AlarmTicks (bootedOneSleeper 2 true)).state.scheduler.AThreadWakeUp = false ∧
    (Scheduler.AlarmTicks (bootedOneSleeper 2 true)).state.readyItems = [] ∧
    (Scheduler.AlarmTicks (bootedOneSleeper 1 false)).state.scheduler.AThreadWakeUp = true ∧
    (Scheduler.AlarmTicks (bootedOneSleeper 1 false)).state.readyItems = [⟨1, 0⟩] ∧
    (Scheduler.AlarmTicks (bootedOneSleeper 1 false)).isOk = true ∧
    ∃ woken : List SleepingThread,
      (bootedOneSleeper 1 false).scheduler.sleepingList.map SleepingThread.decreaseSleepTime =
        woken ++ (Scheduler.AlarmTicks (bootedOneSleeper 1 false)).state.scheduler.sleepingList ∧
      (∀ st ∈ woken, st.sleepTime = 0) ∧
      (Scheduler.AlarmTicks (bootedOneSleeper 1 false)).state.readyItems.Perm
        ((bootedOneSleeper 1 false).readyItems ++ woken.map SleepingThread.thread) ∧
      ((Scheduler.AlarmTicks (bootedOneSleeper 1 false)).state.scheduler.AThreadWakeUp = true ↔
        woken ≠ []) ∧
      ((bootedOneSleeper 1 false).level = IntStatus.IntOff →
        (bootedOneSleeper 1 false).scheduler.readyList ≠ none →
        (Scheduler.AlarmTicks (bootedOneSleeper 1 false)).isOk = true) :=
  ⟨by decide, by decide, by decide, by decide,
    (alarmTicks_flag_iff_woken (bootedOneSleeper 1 false)).elim
      (fun _ h => h.2.2.2.2 rfl (fun h0 => Option.noConfusion h0)),
    alarmTicks_flag_iff_woken (bootedOneSleeper 1 false)⟩

/-! ## The Shortest-Job-First policy -/

/-- C10. What the code does when SJF is selected. The kernel constructor
reads the flag -SJF as the scheduler type SJF; the scheduler constructor
then completes, having built no ready list; the first ReadyToRun or
FindNextToRun, called with interrupts off, goes through a pointer that
holds no list, which is no assertion failure. -/
theorem sjf_constructed_without_readyList :
    ThreadedKernel.schedulerType ["nachos", "-SJF"] = some SchedulerType.SJF ∧
    (Scheduler.Scheduler SchedulerType.SJF).readyList = none ∧
    (Scheduler.Scheduler SchedulerType.SJF).schedulerType = SchedulerType.SJF ∧
    (Scheduler.ReadyToRun (bootedOff SchedulerType.SJF) ⟨1, 0⟩).isOk = false ∧
    (Scheduler.ReadyToRun (bootedOff SchedulerType.SJF) ⟨1, 0⟩).isAssertFailed = false ∧
    (Scheduler.FindNextToRun (bootedOff SchedulerType.SJF)).isOk = false ∧
    (Scheduler.FindNextToRun (bootedOff SchedulerType.SJF)).isAssertFailed = false := by
  refine ⟨?_, rfl, rfl, by decide, by decide, by decide, by decide⟩
  simp [ThreadedKernel.schedulerType, ThreadedKernel.scan]

/-! ## Preconditions and assertions -/

/-- C11. ReadyToRun, FindNextToRun and Run assert that interrupts are off.
In every state whose interrupt level is not IntOff, and for every argument,
each of the three ends in a failed assertion, and the state at the failure
is the state at the call: the ready list, every status and the current
thread are unchanged. -/
theorem interrupts_on_is_assertion_failure (SWITCH : Kernel → Kernel) (k : Kernel)
    (thread : Thread) (nextThread : Option Thread) (finishing : Bool)
    (hl : k.level ≠ IntStatus.IntOff) :
    Scheduler.ReadyToRun k thread = .assertFailed k ∧
    Scheduler.FindNextToRun k = .assertFailed k ∧
    Scheduler.Run SWITCH k nextThread finishing = .assertFailed k ∧
    (Scheduler.ReadyToRun k thread).state.scheduler.readyList = k.scheduler.readyList ∧
    (Scheduler.ReadyToRun k thread).state.status = k.status ∧
    (Scheduler.FindNextToRun k).state.scheduler.readyList = k.scheduler.readyList ∧
    (Scheduler.Run SWITCH k nextThread finishing).state.currentThread = k.currentThread ∧
    (Scheduler.Run SWITCH k nextThread finishing).state.status = k.status := by
  have h1 : Scheduler.ReadyToRun k thread = .assertFailed k := by
    simp [Scheduler.ReadyToRun, hl]
  have h2 : Scheduler.FindNextToRun k = .assertFailed k := by
    simp [Scheduler.FindNextToRun, hl]
  have h3 : Scheduler.Run SWITCH k nextThread finishing = .assertFailed k := by
    simp [Scheduler.Run, Scheduler.Run_toSwitch, hl]
  refine ⟨h1, h2, h3, ?_, ?_, ?_, ?_, ?_⟩
  · rw [h1]; rfl
  · rw [h1]; rfl
  · rw [h2]; rfl
  · rw [h3]; rfl
  · rw [h3]; rfl

/-- C11, witness. Right after boot interrupts are enabled: making thread 1
ready, asking for the next thread and dispatching to thread 1 all abort on
the assertion and leave the booted state. -/
theorem interrupts_on_is_assertion_failure_witness :
    (bootedOn SchedulerType.RR).level ≠ IntStatus.IntOff ∧
    Scheduler.ReadyToRun (bootedOn SchedulerType.RR) ⟨1, 0⟩
      = .assertFailed (bootedOn SchedulerType.RR) ∧
    Scheduler.FindNextToRun (bootedOn SchedulerType.RR)
      = .assertFailed (bootedOn SchedulerType.RR) ∧
    Scheduler.Run id (bootedOn SchedulerType.RR) (some ⟨1, 0⟩) false
      = .assertFailed (bootedOn SchedulerType.RR) :=
  ⟨by decide,
   (interrupts_on_is_assertion_failure id (bootedOn SchedulerType.RR) ⟨1, 0⟩ (some ⟨1, 0⟩)
      false (by decide)).1,
   (interrupts_on_is_assertion_failure id (bootedOn SchedulerType.RR) ⟨1, 0⟩ (some ⟨1, 0⟩)
      false (by decide)).2.1,
   (interrupts_on_is_assertion_failure id (bootedOn SchedulerType.RR) ⟨1, 0⟩ (some ⟨1, 0⟩)
      false (by decide)).2.2.1⟩

/-- C12. What AlarmTicks does with interrupts enabled. It has no assertion
of its own: with nobody asleep, and with one sleeper that has three ticks to
go, the call completes with interrupts enabled (the sleeper then shows two
ticks); the assertion of ReadyToRun is reached only when a sleeper is due,
as with one sleeper on its last tick. -/
theorem alarmTicks_interrupts_on_completes :
    (bootedOn SchedulerType.RR).level = IntStatus.IntOn ∧
    (Scheduler.AlarmTicks (bootedOn SchedulerType.RR)).isOk = true ∧
    (Scheduler.AlarmTicks (bootedOn SchedulerType.RR)).isAssertFailed = false ∧
    (Scheduler.AlarmTicks
      { bootedOneSleeper 3 false with level := IntStatus.IntOn }).isOk = true ∧
    (Scheduler.AlarmTicks
      { bootedOneSleeper 3 false with level := IntStatus.IntOn }).isAssertFailed = false ∧
    (Scheduler.AlarmTicks
      { bootedOneSleeper 3 false with level := IntStatus.IntOn }).state.scheduler.sleepingList
      = [⟨⟨1, 0⟩, 2⟩] ∧
    (Scheduler.AlarmTicks
      { bootedOneSleeper 1 false with level := IntStatus.IntOn }).isAssertFailed = true := by
  refine ⟨rfl, ?_, ?_, ?_, ?_, ?_, ?_⟩ <;> decide

/-- C13, as stated, fails. GoSleep called with 0 ticks, and with -3 ticks,
on the booted kernel runs through and puts a sleeper with that count on the
sleeping list: it is not so that GoSleep with ticks at most 0 adds no entry. -/
theorem goSleep_nonpositive_ticks_enqueues :
    (Scheduler.GoSleep_toSleep (bootedOff SchedulerType.RR) ⟨1, 0⟩ 0).2.scheduler.sleepingList
      = [⟨⟨1, 0⟩, 0⟩] ∧
    (Scheduler.GoSleep_toSleep (bootedOff SchedulerType.RR) ⟨1, 0⟩ (-3)).2.scheduler.sleepingList
      = [⟨⟨1, 0⟩, -3⟩] ∧
    (SleepOp.step (bootedOff SchedulerType.RR) (SleepOp.goSleep ⟨1, 0⟩ 0)).isAssertFailed
      = false ∧
    ¬ (∀ (k : Kernel) (t : Thread) (ticks : Int), ticks ≤ 0 →
        (Scheduler.GoSleep_toSleep k t ticks).2.scheduler.sleepingList
          = k.scheduler.sleepingList) := by
  refine ⟨by decide, by decide, by decide, ?_⟩
  intro h
  have := h (bootedOff SchedulerType.RR) ⟨1, 0⟩ 0 (le_refl 0)
  revert this
  decide

/-- C13, amended. GoSleep does not check the number of ticks. For every
state, every thread and every integer number of ticks, positive or not, the
call reaches the point where the caller is suspended with interrupts off,
the thread BLOCKED and one sleeper with exactly that thread and count
inserted in the sleeping list at its sorted position; the list has grown by
one. -/
theorem goSleep_enqueues_whatever_ticks (k : Kernel) (t : Thread) (ticks : Int) :
    (Scheduler.GoSleep_toSleep k t ticks).2.scheduler.sleepingList =
      SortedList_Insert SleepTime_cmp { thread := t, sleepTime := ticks }
        k.scheduler.sleepingList ∧
    (Scheduler.GoSleep_toSleep k t ticks).2.scheduler.sleepingList.length =
      k.scheduler.sleepingList.length + 1 ∧
    ({ thread := t, sleepTime := ticks } : SleepingThread) ∈
      (Scheduler.GoSleep_toSleep k t ticks).2.scheduler.sleepingList ∧
    (Scheduler.GoSleep_toSleep k t ticks).2.level = IntStatus.IntOff ∧
    (Scheduler.GoSleep_toSleep k t ticks).2.status t = ThreadStatus.BLOCKED := by
  have h1 : (Scheduler.GoSleep_toSleep k t ticks).2.scheduler.sleepingList =
      SortedList_Insert SleepTime_cmp { thread := t, sleepTime := ticks }
        k.scheduler.sleepingList := rfl
  refine ⟨h1, ?_, ?_, rfl, ?_⟩
  · rw [h1, SortedList_Insert_length]
  · rw [h1, SortedList_Insert_mem]; exact Or.inl rfl
  · simp [Scheduler.GoSleep_toSleep, Thread.Sleep, Kernel.setStatus, Kernel.SetLevel]

/-- C14, as stated, fails. On the booted kernel with interrupts off, Run
with no thread to run and finishing set ends in no assertion failure; it
stops on the null pointer once the slot toBeDestroyed has received the main
thread and the current thread has been set to null. -/
theorem run_null_target_no_assertion :
    (Scheduler.Run id (bootedOff SchedulerType.RR) none true).isAssertFailed = false ∧
    (Scheduler.Run id (bootedOff SchedulerType.RR) none true).isOk = false ∧
    (bootedOff SchedulerType.RR).currentThread = some ⟨0, 0⟩ ∧
    (Scheduler.Run id (bootedOff SchedulerType.RR) none true).state.currentThread = none ∧
    (bootedOff SchedulerType.RR).scheduler.toBeDestroyed = none ∧
    (Scheduler.Run id (bootedOff SchedulerType.RR) none true).state.scheduler.toBeDestroyed
      = some ⟨0, 0⟩ := by
  refine ⟨?_, ?_, rfl, ?_, rfl, ?_⟩ <;> decide

/-- C14, amended. Run has no assertion on the thread to run. For every
state with interrupts off, a running thread and, when finishing is set, an
empty slot toBeDestroyed, Run with a null thread to run fails no assertion
and does not reach SWITCH: it stops where the null pointer is dereferenced,
after the slot has received the previously running thread when finishing is
set (it is unchanged otherwise) and after the current thread has been set
to null; the ready list, the sleeping list and every status are
unchanged. -/
theorem run_null_target_stops_on_pointer (SWITCH : Kernel → Kernel) (k : Kernel)
    (oldThread : Thread) (finishing : Bool)
    (hl : k.level = IntStatus.IntOff)
    (hcur : k.currentThread = some oldThread)
    (hslot : finishing = true → k.scheduler.toBeDestroyed = none) :
    ∃ k1, Scheduler.Run SWITCH k none finishing = .badPointer k1 ∧
      k1.currentThread = none ∧
      (finishing = true → k1.scheduler.toBeDestroyed = some oldThread) ∧
      (finishing = false → k1.scheduler.toBeDestroyed = k.scheduler.toBeDestroyed) ∧
      k1.scheduler.readyList = k.scheduler.readyList ∧
      k1.scheduler.sleepingList = k.scheduler.sleepingList ∧
      k1.status = k.status ∧
      k1.destroyed = k.destroyed := by
  cases finishing with
  | true =>
    have hs := hslot rfl
    have hrun : Scheduler.Run SWITCH k none true =
        .badPointer
          { k with
            currentThread := none
            scheduler := { k.scheduler with toBeDestroyed := some oldThread } } := by
      simp [Scheduler.Run, Scheduler.Run_toSwitch, hl, hs, hcur]
    exact ⟨_, hrun, rfl, fun _ => rfl, fun h => Bool.noConfusion h, rfl, rfl, rfl, rfl⟩
  | false =>
    have hrun : Scheduler.Run SWITCH k none false =
        .badPointer { k with currentThread := none } := by
      simp [Scheduler.Run, Scheduler.Run_toSwitch, hl, hcur]
    exact ⟨_, hrun, rfl, fun h => Bool.noConfusion h, fun _ => rfl, rfl, rfl, rfl, rfl⟩

/-- C14, amended, witness. The booted kernel with interrupts off, the main
thread running and the slot empty. -/
theorem run_null_target_stops_on_pointer_witness :
    (bootedOff SchedulerType.RR).level = IntStatus.IntOff ∧
    (bootedOff SchedulerType.RR).currentThread = some ⟨0, 0⟩ ∧
    (bootedOff SchedulerType.RR).scheduler.toBeDestroyed = none ∧
    ∃ k1, Scheduler.Run id (bootedOff SchedulerType.RR) none true = .badPointer k1 ∧
      k1.currentThread = none ∧
      (true = true → k1.scheduler.toBeDestroyed = some ⟨0, 0⟩) ∧
      (true = false →
        k1.scheduler.toBeDestroyed = (bootedOff SchedulerType.RR).scheduler.toBeDestroyed) ∧
      k1.scheduler.readyList = (bootedOff SchedulerType.RR).scheduler.readyList ∧
      k1.scheduler.sleepingList = (bootedOff SchedulerType.RR).scheduler.sleepingList ∧
      k1.status = (bootedOff SchedulerType.RR).status ∧
      k1.destroyed = (bootedOff SchedulerType.RR).destroyed :=
  ⟨rfl, rfl, rfl,
    run_null_target_stops_on_pointer id (bootedOff SchedulerType.RR) ⟨0, 0⟩ true rfl rfl
      (fun _ => rfl)⟩

/-! ## Postconditions of the ready-list routines -/

/-- C15. FindNextToRun, with interrupts off and whatever the class of the
ready list (plain for Round-Robin, sorted for FCFS and Priority). On an
empty list it completes, returns "none" and leaves the kernel state as it
was. On a list with head x it completes and returns x; the ready list
afterwards is the list without x, the other threads in the same order; the
status of x and of every other thread, the sleeping list, the slot, the
current thread and the interrupt level are unchanged. -/
theorem findNextToRun_postcondition (k : Kernel) (r : ReadyList)
    (hl : k.level = IntStatus.IntOff) (hr : k.scheduler.readyList = some r) :
    (r.items = [] → Scheduler.FindNextToRun k = .ok none k) ∧
    (∀ (x : Thread) (xs : List Thread), r.items = x :: xs →
      ∃ k1, Scheduler.FindNextToRun k = .ok (some x) k1 ∧
        k1.readyItems = xs ∧
        k1.scheduler.readyList = some { r with items := xs } ∧
        k1.status = k.status ∧
        k1.scheduler.sleepingList = k.scheduler.sleepingList ∧
        k1.scheduler.toBeDestroyed = k.scheduler.toBeDestroyed ∧
        k1.currentThread = k.currentThread ∧
        k1.level = k.level) := by
  refine ⟨fun hi => FindNextToRun_nil k r hl hr hi, ?_⟩
  intro x xs hi
  exact ⟨_, FindNextToRun_cons k r x xs hl hr hi, by simp [Kernel.readyItems],
    rfl, rfl, rfl, rfl, rfl, rfl⟩

/-- C15, witness. On the booted Round-Robin kernel with interrupts off the
ready list is empty and the call returns "none"; with threads 1 and 2 on a
Priority ready list it returns thread 1 and leaves thread 2. -/
theorem findNextToRun_postcondition_witness :
    Scheduler.FindNextToRun (bootedOff SchedulerType.RR)
      = .ok none (bootedOff SchedulerType.RR) ∧
    ∃ k1, Scheduler.FindNextToRun
        { bootedOff SchedulerType.Priority with
          scheduler := { Scheduler.Scheduler SchedulerType.Priority with
            readyList := some { compare := some Priority_cmp, items := [⟨1, 2⟩, ⟨2, 5⟩] } } }
        = .ok (some ⟨1, 2⟩) k1 ∧
      k1.readyItems = [⟨2, 5⟩] :=
  ⟨(findNextToRun_postcondition (bootedOff SchedulerType.RR) { compare := none, items := [] }
      rfl rfl).1 rfl,
   ((findNextToRun_postcondition
      { bootedOff SchedulerType.Priority with
        scheduler := { Scheduler.Scheduler SchedulerType.Priority with
          readyList := some { compare := some Priority_cmp, items := [⟨1, 2⟩, ⟨2, 5⟩] } } }
      { compare := some Priority_cmp, items := [⟨1, 2⟩, ⟨2, 5⟩] } rfl rfl).2
      ⟨1, 2⟩ [⟨2, 5⟩] rfl).imp (fun _ h => ⟨h.1, h.2.1⟩)⟩

/-- Sorted insertion puts the item somewhere between the elements of the
list and moves none of them. -/
theorem SortedList_Insert_split {α : Type} (c : α → α → Int) (x : α) (l : List α) :
    ∃ l1 l2, l = l1 ++ l2 ∧ SortedList_Insert c x l = l1 ++ x :: l2 := by
  induction l with
  | nil => exact ⟨[], [], rfl, rfl⟩
  | cons y ys ih =>
    unfold SortedList_Insert
    split
    · exact ⟨[], y :: ys, rfl, rfl⟩
    · obtain ⟨l1, l2, h1, h2⟩ := ih
      exact ⟨y :: l1, l2, by rw [h1]; rfl, by rw [h2]; rfl⟩

theorem ReadyList_Append_split (r : ReadyList) (t : Thread) :
    ∃ l1 l2, r.items = l1 ++ l2 ∧ (r.Append t).items = l1 ++ t :: l2 := by
  unfold ReadyList.Append
  split
  · exact ⟨r.items, [], by simp, by simp [List_Append]⟩
  · exact SortedList_Insert_split _ t r.items

/-- C16. ReadyToRun, with interrupts off, on a ready list of any class
(plain for Round-Robin, sorted by FCFS_cmp or by Priority_cmp) and a thread
that is not on it. The call completes; the thread has status READY and no
other status has changed; the ready list is the previous list with the
thread inserted at one place, the previous threads keeping their order, so
it holds the thread exactly once and is longer by one; on a plain list and
on a list sorted by FCFS_cmp the place is the tail. -/
theorem readyToRun_postcondition (k : Kernel) (r : ReadyList) (t : Thread)
    (hl : k.level = IntStatus.IntOff) (hr : k.scheduler.readyList = some r)
    (hnew : t ∉ r.items) :
    ∃ k1, Scheduler.ReadyToRun k t = .ok () k1 ∧
      k1.status t = ThreadStatus.READY ∧
      (∀ u, u ≠ t → k1.status u = k.status u) ∧
      (∃ l1 l2, r.items = l1 ++ l2 ∧ k1.readyItems = l1 ++ t :: l2) ∧
      k1.readyItems.count t = 1 ∧
      k1.readyItems.length = r.items.length + 1 ∧
      (∀ u, u ≠ t → k1.readyItems.count u = r.items.count u) ∧
      (r.compare = none ∨ r.compare = some FCFS_cmp → k1.readyItems = r.items ++ [t]) := by
  refine ⟨_, ReadyToRun_ok k t r hl hr, ?_, ?_, ?_, ?_, ?_, ?_, ?_⟩
  · simp [Kernel.setStatus]
  · intro u hu
    simp [Kernel.setStatus, Function.update_noteq hu]
  · simpa [Kernel.readyItems] using ReadyList_Append_split r t
  · have hp := (ReadyList_Append_perm r t).count_eq t
    simp only [Kernel.readyItems]
    rw [hp, List.count_append, List.count_eq_zero_of_not_mem hnew]
    simp
  · have hp := (ReadyList_Append_perm r t).length_eq
    simp only [Kernel.readyItems]
    rw [hp]; simp
  · intro u hu
    have hp := (ReadyList_Append_perm r t).count_eq u
    simp only [Kernel.readyItems]
    rw [hp, List.count_append]
    simp [List.count_singleton, Ne.symm hu]
  · intro hc
    simp only [Kernel.readyItems]
    rcases hc with hc | hc
    · simp [ReadyList.Append, hc, List_Append]
    · simp [ReadyList.Append, hc, SortedList_Insert_tail FCFS_cmp FCFS_cmp_not_neg]

/-- C16, witness. Thread 3 of priority 4 made ready on a Priority ready
list that holds threads 1 (priority 2) and 2 (priority 5): it is READY and
sits between them. -/
theorem readyToRun_postcondition_witness :
    (⟨3, 4⟩ : Thread) ∉ ([⟨1, 2⟩, ⟨2, 5⟩] : List Thread) ∧
    (Scheduler.ReadyToRun
        { bootedOff SchedulerType.Priority with
          scheduler := { Scheduler.Scheduler SchedulerType.Priority with
            readyList := some { compare := some Priority_cmp, items := [⟨1, 2⟩, ⟨2, 5⟩] } } }
        ⟨3, 4⟩).state.readyItems = [⟨1, 2⟩, ⟨3, 4⟩, ⟨2, 5⟩] ∧
    ∃ k1, Scheduler.ReadyToRun
        { bootedOff SchedulerType.Priority with
          scheduler := { Scheduler.Scheduler SchedulerType.Priority with
            readyList := some { compare := some Priority_cmp, items := [⟨1, 2⟩, ⟨2, 5⟩] } } }
        ⟨3, 4⟩ = .ok () k1 ∧
      k1.status ⟨3, 4⟩ = ThreadStatus.READY ∧
      k1.readyItems.count ⟨3, 4⟩ = 1 :=
  ⟨by decide, by decide,
   (readyToRun_postcondition
      { bootedOff SchedulerType.Priority with
        scheduler := { Scheduler.Scheduler SchedulerType.Priority with
          readyList := some { compare := some Priority_cmp, items := [⟨1, 2⟩, ⟨2, 5⟩] } } }
      { compare := some Priority_cmp, items := [⟨1, 2⟩, ⟨2, 5⟩] } ⟨3, 4⟩ rfl rfl
      (by decide)).imp (fun _ h => ⟨h.1, h.2.1, h.2.2.2.2.1⟩)⟩

/-! ## GoSleep and the interrupt level -/

theorem decreaseSleepTime_thread (l : List SleepingThread) :
    (l.map SleepingThread.decreaseSleepTime).map SleepingThread.thread =
      l.map SleepingThread.thread := by
  rw [List.map_map]
  exact List.map_congr_left (fun e _ => rfl)

/-- C18. AlarmTicks neither loses nor duplicates threads. In every state
with interrupts off and a ready list in place, in which the sleeping list
and the ready list hold distinct threads and share none, the call completes
and afterwards: every thread that was asleep is either still on the
sleeping list and not on the ready list, or on the ready list and no longer
on the sleeping list; every thread that was on the ready list is still on
it; no thread is on both lists; each list still holds distinct threads;
every thread that came onto the ready list has status READY; and no thread
appeared that was on neither list before. -/
theorem alarmTicks_conserves_threads (k : Kernel) (r : ReadyList)
    (hl : k.level = IntStatus.IntOff) (hr : k.scheduler.readyList = some r)
    (hsn : (k.scheduler.sleepingList.map SleepingThread.thread).Nodup)
    (hrn : r.items.Nodup)
    (hdis : ∀ t ∈ r.items, t ∉ k.scheduler.sleepingList.map SleepingThread.thread) :
    ∃ k1, Scheduler.AlarmTicks k = .ok () k1 ∧
      (∀ t ∈ k.scheduler.sleepingList.map SleepingThread.thread,
        (t ∈ k1.scheduler.sleepingList.map SleepingThread.thread ∧ t ∉ k1.readyItems) ∨
        (t ∉ k1.scheduler.sleepingList.map SleepingThread.thread ∧ t ∈ k1.readyItems)) ∧
      (∀ t ∈ r.items, t ∈ k1.readyItems) ∧
      (∀ t ∈ k1.readyItems, t ∉ k1.scheduler.sleepingList.map SleepingThread.thread) ∧
      k1.readyItems.Nodup ∧
      (k1.scheduler.sleepingList.map SleepingThread.thread).Nodup ∧
      (∀ t ∈ k1.readyItems, t ∉ r.items → k1.status t = ThreadStatus.READY) ∧
      (∀ t, t ∈ k1.readyItems ∨ t ∈ k1.scheduler.sleepingList.map SleepingThread.thread →
        t ∈ r.items ∨ t ∈ k.scheduler.sleepingList.map SleepingThread.thread) := by
  obtain ⟨k1, h1, -, h3, h4, -, h6⟩ := AlarmTicks_ok k r hl hr
  have hsplit : k.scheduler.sleepingList.map SleepingThread.thread =
      ((k.scheduler.sleepingList.map SleepingThread.decreaseSleepTime).takeWhile
        (fun st => decide (st.sleepTime = 0))).map SleepingThread.thread ++
      ((k.scheduler.sleepingList.map SleepingThread.decreaseSleepTime).dropWhile
        (fun st => decide (st.sleepTime = 0))).map SleepingThread.thread := by
    rw [← List.map_append, List.takeWhile_append_dropWhile, decreaseSleepTime_thread]
  have hperm : k1.readyItems.Perm (r.items ++
      ((k.scheduler.sleepingList.map SleepingThread.decreaseSleepTime).takeWhile
        (fun st => decide (st.sleepTime = 0))).map SleepingThread.thread) := by
    simpa [Kernel.readyItems, h3] using foldl_Append_perm
      ((k.scheduler.sleepingList.map SleepingThread.decreaseSleepTime).takeWhile
        (fun st => decide (st.sleepTime = 0))) r
  generalize ((k.scheduler.sleepingList.map SleepingThread.decreaseSleepTime).takeWhile
    (fun st => decide (st.sleepTime = 0))).map SleepingThread.thread = W at hsplit hperm h6
  rw [← h4] at hsplit
  rw [hsplit] at hsn hdis
  obtain ⟨hWn, hDn, hWD⟩ := List.nodup_append.1 hsn
  have hmem : ∀ t, t ∈ k1.readyItems ↔ t ∈ r.items ∨ t ∈ W := by
    intro t; rw [hperm.mem_iff, List.mem_append]
  refine ⟨k1, h1, ?_, ?_, ?_, ?_, hDn, ?_, ?_⟩
  · intro t ht
    rw [hsplit, List.mem_append] at ht
    rcases ht with ht | ht
    · exact Or.inr ⟨fun hD => hWD ht hD, (hmem t).2 (Or.inr ht)⟩
    · refine Or.inl ⟨ht, ?_⟩
      intro hR
      rcases (hmem t).1 hR with hR | hR
      · exact hdis t hR (List.mem_append_right _ ht)
      · exact hWD hR ht
  · intro t ht; exact (hmem t).2 (Or.inl ht)
  · intro t ht hD
    rcases (hmem t).1 ht with hR | hR
    · exact hdis t hR (List.mem_append_right _ hD)
    · exact hWD hR hD
  · rw [hperm.nodup_iff, List.nodup_append]
    refine ⟨hrn, hWn, ?_⟩
    intro t hR hW
    exact hdis t hR (List.mem_append_left _ hW)
  · intro t ht hnot
    rcases (hmem t).1 ht with hR | hR
    · exact absurd hR hnot
    · rw [h6 t, if_pos hR]
  · intro t ht
    rw [hsplit, List.mem_append]
    rcases ht with ht | ht
    · rcases (hmem t).1 ht with hR | hR
      · exact Or.inl hR
      · exact Or.inr (Or.inl hR)
    · exact Or.inr (Or.inr ht)

/-- C18, witness. Threads 1 and 2 asleep with one and four ticks to go,
thread 3 ready, interrupts off: the tick moves thread 1 to the ready list
behind thread 3 and leaves thread 2 asleep with three ticks. -/
theorem alarmTicks_conserves_threads_witness :
    (Scheduler.AlarmTicks
        ({ bootedOff SchedulerType.RR with
          scheduler := { Scheduler.Scheduler SchedulerType.RR with
            readyList := some { compare := none, items := [⟨3, 0⟩] }
            sleepingList := [⟨⟨1, 0⟩, 1⟩, ⟨⟨2, 0⟩, 4⟩] } } : Kernel)).state.readyItems
      = [⟨3, 0⟩, ⟨1, 0⟩] ∧
    (Scheduler.AlarmTicks
        ({ bootedOff SchedulerType.RR with
          scheduler := { Scheduler.Scheduler SchedulerType.RR with
            readyList := some { compare := none, items := [⟨3, 0⟩] }
            sleepingList := [⟨⟨1, 0⟩, 1⟩, ⟨⟨2, 0⟩, 4⟩] } } : Kernel)).state.scheduler.sleepingList
      = [⟨⟨2, 0⟩, 3⟩] ∧
    ∃ k1, Scheduler.AlarmTicks
        ({ bootedOff SchedulerType.RR with
          scheduler := { Scheduler.Scheduler SchedulerType.RR with
            readyList := some { compare := none, items := [⟨3, 0⟩] }
            sleepingList := [⟨⟨1, 0⟩, 1⟩, ⟨⟨2, 0⟩, 4⟩] } } : Kernel) = .ok () k1 ∧
      (∀ t ∈ k1.readyItems, t ∉ k1.scheduler.sleepingList.map SleepingThread.thread) ∧
      k1.readyItems.Nodup :=
  ⟨by decide, by decide,
   (alarmTicks_conserves_threads
      { bootedOff SchedulerType.RR with
        scheduler := { Scheduler.Scheduler SchedulerType.RR with
          readyList := some { compare := none, items := [⟨3, 0⟩] }
          sleepingList := [⟨⟨1, 0⟩, 1⟩, ⟨⟨2, 0⟩, 4⟩] } }
      { compare := none, items := [⟨3, 0⟩] } rfl rfl (by decide) (by decide)
      (by decide)).imp (fun _ h => ⟨h.1, h.2.2.2.1, h.2.2.2.2.1⟩)⟩

/-! ## Stopping at the first sleeper that is not due -/

/-- When the wake loop completes, whatever the interrupt level, it has
removed the whole run of sleepers with count zero at the head. -/
theorem AlarmTicks_wake_ok_rest (q : List SleepingThread) :
    ∀ k k1 : Kernel, k.scheduler.sleepingList = q →
      Scheduler.AlarmTicks_wake q k = .ok () k1 →
      k1.scheduler.sleepingList = q.dropWhile (fun st => decide (st.sleepTime = 0)) := by
  induction q with
  | nil =>
    intro k k1 hq h
    simp only [Scheduler.AlarmTicks_wake, Outcome.ok.injEq, true_and] at h
    subst h
    simpa using hq
  | cons st rest ih =>
    intro k k1 hq h
    by_cases h0 : st.sleepTime = 0
    · rcases ReadyToRun_cases k st.getThread with ⟨-, hr⟩ | ⟨-, -, hr⟩ | ⟨r, -, -, hr⟩
      · simp [Scheduler.AlarmTicks_wake, SleepingThread.getSleepTime, h0, hr] at h
      · simp [Scheduler.AlarmTicks_wake, SleepingThread.getSleepTime, h0, hr] at h
      · simp only [Scheduler.AlarmTicks_wake, SleepingThread.getSleepTime, h0, hr,
          if_true] at h
        rw [ih _ k1 rfl h]
        simp [List.dropWhile_cons, h0]
    · simp only [Scheduler.AlarmTicks_wake, SleepingThread.getSleepTime, h0, if_false,
        Outcome.ok.injEq, true_and] at h
      subst h
      simp [List.dropWhile_cons, h0, hq]

/-- In an ascending list of counts that were all at least one, decremented
once, dropping the zeros at the head leaves exactly the counts above zero. -/
theorem dropWhile_zero_after_decrease (l : List SleepingThread)
    (hs : l.Pairwise (fun a b => a.sleepTime ≤ b.sleepTime))
    (hpos : ∀ e ∈ l, 1 ≤ e.sleepTime) :
    (l.map SleepingThread.decreaseSleepTime).dropWhile (fun st => decide (st.sleepTime = 0)) =
      (l.map SleepingThread.decreaseSleepTime).filter (fun e => decide (0 < e.sleepTime)) := by
  have h0 : ∀ e ∈ l.map SleepingThread.decreaseSleepTime, (0 : Int) ≤ e.sleepTime := by
    intro e he
    obtain ⟨a, ha, rfl⟩ := List.mem_map.1 he
    have := hpos a ha
    rw [decreaseSleepTime_above a (by unfold INT_MIN; omega)]
    omega
  have hmin : ∀ e ∈ l, INT_MIN < e.sleepTime := by
    intro e he
    have := hpos e he
    unfold INT_MIN; omega
  have h := (sorted_takeWhile_dropWhile 0 _ (decreaseSleepTime_sorted l hs hmin) h0).2
  have hp : (fun e : SleepingThread => decide (e.sleepTime - 0 = 0)) =
      fun st => decide (st.sleepTime = 0) := by
    funext e; simp
  rw [hp] at h
  exact h

/-- One request of a run with positive sleep times keeps the run going and
keeps every count on the sleeping list at least one. -/
theorem SleepOp_step_positive (k : Kernel) (op : SleepOp)
    (hlv : k.level = IntStatus.IntOff ∨ k.scheduler.sleepingList = [])
    (hr : k.scheduler.readyList ≠ none)
    (hs : k.scheduler.sleepingList.Pairwise (fun a b => a.sleepTime ≤ b.sleepTime))
    (hpos : ∀ e ∈ k.scheduler.sleepingList, 1 ≤ e.sleepTime)
    (hop : op.positive = true) :
    ∃ k1, op.step k = .ok () k1 ∧
      (k1.level = IntStatus.IntOff ∨ k1.scheduler.sleepingList = []) ∧
      k1.scheduler.readyList ≠ none ∧
      k1.scheduler.sleepingList.Pairwise (fun a b => a.sleepTime ≤ b.sleepTime) ∧
      (∀ e ∈ k1.scheduler.sleepingList, 1 ≤ e.sleepTime) := by
  cases op with
  | goSleep t n =>
    have hn : 0 < n := by simpa [SleepOp.positive] using hop
    refine ⟨_, rfl, Or.inl rfl, hr, ?_, ?_⟩
    · exact SortedList_Insert_sorted SleepTime_cmp (fun a => a.sleepTime) SleepTime_cmp_neg
        _ _ hs
    · intro e he
      have he2 : e ∈ SortedList_Insert SleepTime_cmp
          ({ thread := t, sleepTime := n } : SleepingThread) k.scheduler.sleepingList := he
      rcases (SortedList_Insert_mem _ _ _ _).1 he2 with rfl | he3
      · show (1 : Int) ≤ n
        omega
      · exact hpos e he3
  | alarmTicks =>
    rcases hlv with hl | hq
    · cases hrl : k.scheduler.readyList with
      | none => exact absurd hrl hr
      | some r =>
        obtain ⟨k1, h1, h2, h3, h4, -⟩ := AlarmTicks_ok k r hl hrl
        rw [dropWhile_zero_after_decrease _ hs hpos] at h4
        refine ⟨k1, h1, Or.inl h2, by rw [h3]; simp, ?_, ?_⟩
        · rw [h4]
          have hmin : ∀ e ∈ k.scheduler.sleepingList, INT_MIN < e.sleepTime := by
            intro e he
            have := hpos e he
            unfold INT_MIN; omega
          exact (decreaseSleepTime_sorted _ hs hmin).sublist (List.filter_sublist _)
        · intro e he
          rw [h4] at he
          have := (List.mem_filter.1 he).2
          simp only [decide_eq_true_eq] at this
          omega
    · refine ⟨_, AlarmTicks_nobody k hq, Or.inr hq, hr, ?_, ?_⟩
      · show k.scheduler.sleepingList.Pairwise _
        exact hs
      · exact hpos
  | setLevel l => simp [SleepOp.positive] at hop

theorem runSleepOps_positive (ops : List SleepOp) :
    ∀ k : Kernel, (k.level = IntStatus.IntOff ∨ k.scheduler.sleepingList = []) →
      k.scheduler.readyList ≠ none →
      k.scheduler.sleepingList.Pairwise (fun a b => a.sleepTime ≤ b.sleepTime) →
      (∀ e ∈ k.scheduler.sleepingList, 1 ≤ e.sleepTime) →
      (∀ op ∈ ops, op.positive = true) →
      ∃ k1, runSleepOps k ops = .ok () k1 ∧
        k1.scheduler.sleepingList.Pairwise (fun a b => a.sleepTime ≤ b.sleepTime) ∧
        (∀ e ∈ k1.scheduler.sleepingList, 1 ≤ e.sleepTime) := by
  induction ops with
  | nil => intro k _ _ hs hpos _; exact ⟨k, rfl, hs, hpos⟩
  | cons op ops ih =>
    intro k hlv hr hs hpos hops
    obtain ⟨k1, h1, a1, a2, a3, a4⟩ := SleepOp_step_positive k op hlv hr hs hpos
      (hops op (List.mem_cons_self _ _))
    obtain ⟨k2, h2, b1, b2⟩ := ih k1 a1 a2 a3 a4
      (fun o ho => hops o (List.mem_cons_of_mem _ ho))
    refine ⟨k2, ?_, b1, b2⟩
    rw [runSleepOps, h1]
    exact h2

/-- C19. Stopping at the first head that is not due is safe. For every
state whose sleeping list is ascending with every count at least one: when
AlarmTicks completes, the sleeping list it leaves is exactly the decremented
list without its entries at zero, so every entry left has a count of at
least one; with interrupts off and a ready list in place it does complete.
Hence, started from such a state with a ready list in place and interrupts
off or nobody asleep, every run of timer ticks and GoSleep calls with a
positive number of ticks completes and leaves an ascending sleeping list
with every count at least one. -/
theorem alarmTicks_leaves_no_expired_sleeper (k : Kernel)
    (hs : k.scheduler.sleepingList.Pairwise (fun a b => a.sleepTime ≤ b.sleepTime))
    (hpos : ∀ e ∈ k.scheduler.sleepingList, 1 ≤ e.sleepTime) :
    (∀ k1, Scheduler.AlarmTicks k = .ok () k1 →
      k1.scheduler.sleepingList =
        (k.scheduler.sleepingList.map SleepingThread.decreaseSleepTime).filter
          (fun e => decide (0 < e.sleepTime)) ∧
      ∀ e ∈ k1.scheduler.sleepingList, 1 ≤ e.sleepTime) ∧
    (k.level = IntStatus.IntOff → k.scheduler.readyList ≠ none →
      (Scheduler.AlarmTicks k).isOk = true) ∧
    (∀ ops : List SleepOp,
      (k.level = IntStatus.IntOff ∨ k.scheduler.sleepingList = []) →
      k.scheduler.readyList ≠ none →
      (∀ op ∈ ops, op.positive = true) →
      ∃ k2, runSleepOps k ops = .ok () k2 ∧
        k2.scheduler.sleepingList.Pairwise (fun a b => a.sleepTime ≤ b.sleepTime) ∧
        (∀ e ∈ k2.scheduler.sleepingList, 1 ≤ e.sleepTime)) := by
  refine ⟨?_, ?_, ?_⟩
  · intro k1 h1
    have h2 := AlarmTicks_wake_ok_rest
      (k.scheduler.sleepingList.map SleepingThread.decreaseSleepTime)
      { k with scheduler := { k.scheduler with
          AThreadWakeUp := false
          sleepingList := k.scheduler.sleepingList.map SleepingThread.decreaseSleepTime } }
      k1 rfl h1
    rw [dropWhile_zero_after_decrease _ hs hpos] at h2
    refine ⟨h2, ?_⟩
    intro e he
    rw [h2] at he
    have := (List.mem_filter.1 he).2
    simp only [decide_eq_true_eq] at this
    omega
  · intro hl hr
    cases hrl : k.scheduler.readyList with
    | none => exact absurd hrl hr
    | some r =>
      obtain ⟨k1, h1, -⟩ := AlarmTicks_ok k r hl hrl
      rw [h1]; rfl
  · intro ops hlv hr hops
    exact runSleepOps_positive ops k hlv hr hs hpos hops

/-- C19, witness. Threads 1 and 2 on their last tick and thread 3 with two
ticks to go: the tick removes both expired sleepers, not only the head, and
leaves thread 3 with one tick; and a run of a tick, a GoSleep with two
ticks and two more ticks from that state completes. -/
theorem alarmTicks_leaves_no_expired_sleeper_witness :
    (bootedSleepers [⟨⟨1, 0⟩, 1⟩, ⟨⟨2, 0⟩, 1⟩, ⟨⟨3, 0⟩, 2⟩]).scheduler.sleepingList.Pairwise
      (fun a b => a.sleepTime ≤ b.sleepTime) ∧
    (∀ e ∈ (bootedSleepers [⟨⟨1, 0⟩, 1⟩, ⟨⟨2, 0⟩, 1⟩, ⟨⟨3, 0⟩, 2⟩]).scheduler.sleepingList,
      1 ≤ e.sleepTime) ∧
    (Scheduler.AlarmTicks
      (bootedSleepers [⟨⟨1, 0⟩, 1⟩, ⟨⟨2, 0⟩, 1⟩, ⟨⟨3, 0⟩, 2⟩])).state.scheduler.sleepingList
      = [⟨⟨3, 0⟩, 1⟩] ∧
    (∀ e ∈ (Scheduler.AlarmTicks
        (bootedSleepers [⟨⟨1, 0⟩, 1⟩, ⟨⟨2, 0⟩, 1⟩, ⟨⟨3, 0⟩, 2⟩])).state.scheduler.sleepingList,
      1 ≤ e.sleepTime) ∧
    (Scheduler.AlarmTicks
      (bootedSleepers [⟨⟨1, 0⟩, 1⟩, ⟨⟨2, 0⟩, 1⟩, ⟨⟨3, 0⟩, 2⟩])).isOk = true ∧
    ∃ k2, runSleepOps (bootedSleepers [⟨⟨1, 0⟩, 1⟩, ⟨⟨2, 0⟩, 1⟩, ⟨⟨3, 0⟩, 2⟩])
        [SleepOp.alarmTicks, SleepOp.goSleep ⟨4, 0⟩ 2, SleepOp.alarmTicks,
          SleepOp.alarmTicks] = .ok () k2 ∧
      k2.scheduler.sleepingList.Pairwise (fun a b => a.sleepTime ≤ b.sleepTime) ∧
      (∀ e ∈ k2.scheduler.sleepingList, 1 ≤ e.sleepTime) :=
  ⟨by decide, by decide, by decide,
   ((alarmTicks_leaves_no_expired_sleeper
      (bootedSleepers [⟨⟨1, 0⟩, 1⟩, ⟨⟨2, 0⟩, 1⟩, ⟨⟨3, 0⟩, 2⟩]) (by decide) (by decide)).1
      (Scheduler.AlarmTicks
        (bootedSleepers [⟨⟨1, 0⟩, 1⟩, ⟨⟨2, 0⟩, 1⟩, ⟨⟨3, 0⟩, 2⟩])).state rfl).2,
   (alarmTicks_leaves_no_expired_sleeper
      (bootedSleepers [⟨⟨1, 0⟩, 1⟩, ⟨⟨2, 0⟩, 1⟩, ⟨⟨3, 0⟩, 2⟩]) (by decide) (by decide)).2.1
      rfl (fun h => Option.noConfusion h),
   (alarmTicks_leaves_no_expired_sleeper
      (bootedSleepers [⟨⟨1, 0⟩, 1⟩, ⟨⟨2, 0⟩, 1⟩, ⟨⟨3, 0⟩, 2⟩]) (by decide) (by decide)).2.2
      [SleepOp.alarmTicks, SleepOp.goSleep ⟨4, 0⟩ 2, SleepOp.alarmTicks, SleepOp.alarmTicks]
      (Or.inl rfl) (fun h => Option.noConfusion h) (by decide)⟩

/-! ## A sleeper enqueued with zero ticks -/

/-- A tick on a sleeping list whose head has a count of zero or less only
decrements: the head is at a negative count when it is tested, so nobody is
woken, whatever the interrupt level. -/
theorem AlarmTicks_head_not_positive (k : Kernel) (st : SleepingThread)
    (rest : List SleepingThread) (hq : k.scheduler.sleepingList = st :: rest)
    (h0 : st.sleepTime ≤ 0) :
    Scheduler.AlarmTicks k =
      .ok () { k with scheduler := { k.scheduler with
        AThreadWakeUp := false
        sleepingList := (st :: rest).map SleepingThread.decreaseSleepTime } } := by
  have hne : ¬ st.decreaseSleepTime.sleepTime = 0 := by
    unfold SleepingThread.decreaseSleepTime INT_MIN INT_MAX
    split <;> simp only <;> omega
  simp [Scheduler.AlarmTicks, hq, Scheduler.AlarmTicks_wake, SleepingThread.getSleepTime,
    hne]

theorem runSleepOps_ticks_stuck (t u : Thread) (n : Nat) :
    ∀ (k : Kernel) (a b : Int), a ≤ 0 → INT_MIN + n ≤ a → INT_MIN + n ≤ b →
      k.scheduler.sleepingList = [⟨t, a⟩, ⟨u, b⟩] →
      ∃ k1, runSleepOps k (List.replicate n SleepOp.alarmTicks) = .ok () k1 ∧
        k1.scheduler.sleepingList = [⟨t, a - n⟩, ⟨u, b - n⟩] ∧
        k1.scheduler.readyList = k.scheduler.readyList ∧
        k1.status = k.status ∧
        (1 ≤ n → k1.scheduler.AThreadWakeUp = false) ∧
        (n = 0 → k1 = k) := by
  induction n with
  | zero =>
    intro k a b _ _ _ hq
    exact ⟨k, rfl, by simpa using hq, rfl, rfl, by simp, fun _ => rfl⟩
  | succ n ih =>
    intro k a b ha hla hlb hq
    have htick := AlarmTicks_head_not_positive k ⟨t, a⟩ [⟨u, b⟩] hq ha
    have hca : ((n + 1 : Nat) : Int) = (n : Int) + 1 := by simp
    have hna : a ≠ INT_MIN := by
      intro h; rw [h, hca] at hla; omega
    have hnb : b ≠ INT_MIN := by
      intro h; rw [h, hca] at hlb; omega
    have hdec : ([⟨t, a⟩, ⟨u, b⟩] : List SleepingThread).map SleepingThread.decreaseSleepTime =
        [⟨t, a - 1⟩, ⟨u, b - 1⟩] := by
      simp [SleepingThread.decreaseSleepTime, hna, hnb]
    obtain ⟨k1, h1, h2, h3, h4, h5, h6⟩ := ih
      { k with scheduler := { k.scheduler with
        AThreadWakeUp := false
        sleepingList := ([⟨t, a⟩, ⟨u, b⟩] : List SleepingThread).map
          SleepingThread.decreaseSleepTime } }
      (a - 1) (b - 1) (by omega) (by rw [hca] at hla; omega) (by rw [hca] at hlb; omega) hdec
    refine ⟨k1, ?_, ?_, ?_, ?_, ?_, ?_⟩
    · rw [List.replicate_succ, runSleepOps]
      simp only [SleepOp.step, htick]
      exact h1
    · rw [h2]
      simp only [Nat.cast_add, Nat.cast_one, List.cons.injEq, SleepingThread.mk.injEq,
        true_and, and_true]
      constructor <;> omega
    · rw [h3]
    · rw [h4]
    · intro _
      rcases Nat.eq_zero_or_pos n with hn | hn
      · rw [h6 hn]
      · exact h5 hn
    · intro h; cases h

/-- C20. A sleeper enqueued with zero ticks is never woken and blocks the
sleepers behind it. On a freshly constructed scheduler of any policy, at any
interrupt level, after GoSleep(t, 0) followed by GoSleep(u, 1) and n ticks,
for every n from 1 up to 2^31 (where the tick counter would leave the range
of a 32-bit int), the run completes; both sleepers are still on the sleeping
list, t at the head with count -n and u behind it with count 1 - n; the
ready list is the one the constructor built, so neither thread has been
moved to it; and AThreadWakeUp is false. -/
theorem zero_tick_sleeper_blocks_queue (k0 : Kernel) (sType : SchedulerType) (t u : Thread)
    (n : Nat) (hn : 1 ≤ n) (hb : (n : Int) ≤ 2 ^ 31) :
    ∃ k, runSleepOps { k0 with scheduler := Scheduler.Scheduler sType }
        ([SleepOp.goSleep t 0, SleepOp.goSleep u 1] ++ List.replicate n SleepOp.alarmTicks)
        = .ok () k ∧
      k.scheduler.sleepingList = [⟨t, -(n : Int)⟩, ⟨u, 1 - (n : Int)⟩] ∧
      k.scheduler.readyList = (Scheduler.Scheduler sType).readyList ∧
      k.readyItems = [] ∧
      k.scheduler.AThreadWakeUp = false := by
  obtain ⟨k, h1, h2, h3, -, h5, -⟩ := runSleepOps_ticks_stuck t u n
    (Scheduler.GoSleep_toSleep
      (Scheduler.GoSleep_toSleep { k0 with scheduler := Scheduler.Scheduler sType } t 0).2
      u 1).2 0 1 (le_refl 0) (by unfold INT_MIN; omega) (by unfold INT_MIN; omega)
    (by simp [Scheduler.GoSleep_toSleep, Kernel.SetLevel, Thread.Sleep, Kernel.setStatus,
          Scheduler.Scheduler, SortedList_Insert, SleepTime_cmp,
          SleepingThread.getSleepTime])
  have hr : k.scheduler.readyList = (Scheduler.Scheduler sType).readyList := by
    rw [h3]; rfl
  refine ⟨k, ?_, ?_, hr, ?_, h5 hn⟩
  · rw [runSleepOps_append [SleepOp.goSleep t 0, SleepOp.goSleep u 1] _ _ _ rfl]
    exact h1
  · rw [h2]; simp
  · simp only [Kernel.readyItems, hr]
    cases sType <;> rfl

/-- C20, witness. Thread 1 goes to sleep for zero ticks and thread 2 for one
tick; after three ticks both are still asleep, with counts -3 and -2, the
ready list is empty and the flag is false. -/
theorem zero_tick_sleeper_blocks_queue_witness :
    (1 ≤ 3 ∧ ((3 : Nat) : Int) ≤ 2 ^ 31) ∧
    (runSleepOps (bootedOn SchedulerType.RR)
        ([SleepOp.goSleep ⟨1, 0⟩ 0, SleepOp.goSleep ⟨2, 0⟩ 1] ++
          List.replicate 3 SleepOp.alarmTicks)).state.scheduler.sleepingList
      = [⟨⟨1, 0⟩, -3⟩, ⟨⟨2, 0⟩, -2⟩] ∧
    ∃ k, runSleepOps
        { bootedOn SchedulerType.RR with scheduler := Scheduler.Scheduler SchedulerType.RR }
        ([SleepOp.goSleep ⟨1, 0⟩ 0, SleepOp.goSleep ⟨2, 0⟩ 1] ++
          List.replicate 3 SleepOp.alarmTicks) = .ok () k ∧
      k.scheduler.sleepingList = [⟨⟨1, 0⟩, -((3 : Nat) : Int)⟩, ⟨⟨2, 0⟩, 1 - ((3 : Nat) : Int)⟩] ∧
      k.scheduler.readyList = (Scheduler.Scheduler SchedulerType.RR).readyList ∧
      k.readyItems = [] ∧
      k.scheduler.AThreadWakeUp = false :=
  ⟨by decide, by decide,
    zero_tick_sleeper_blocks_queue (bootedOn SchedulerType.RR) SchedulerType.RR ⟨1, 0⟩ ⟨2, 0⟩ 3
      (by decide) (by decide)⟩

/-! ## The sort invariant of the sleeping list -/

/-- However a tick ends, on an ascending sleeping list with no counter at
`INT_MIN` the list it leaves is ascending, and every counter left is one
less than a counter of the list before. -/
theorem AlarmTicks_state_sorted (k : Kernel)
    (hs : k.scheduler.sleepingList.Pairwise (fun a b => a.sleepTime ≤ b.sleepTime))
    (hmin : ∀ e ∈ k.scheduler.sleepingList, INT_MIN < e.sleepTime) :
    (Scheduler.AlarmTicks k).state.scheduler.sleepingList.Pairwise
      (fun a b => a.sleepTime ≤ b.sleepTime) ∧
    (∀ e ∈ (Scheduler.AlarmTicks k).state.scheduler.sleepingList,
      ∃ e0 ∈ k.scheduler.sleepingList, e.sleepTime = e0.sleepTime - 1) := by
  have hsuf := AlarmTicks_sleepingList_suffix k
  refine ⟨(decreaseSleepTime_sorted _ hs hmin).sublist hsuf.sublist, ?_⟩
  intro e he
  obtain ⟨e0, h0, rfl⟩ := List.mem_map.1 (hsuf.subset he)
  exact ⟨e0, h0, decreaseSleepTime_above e0 (hmin e0 h0)⟩

/-- A tick that completes on an ascending list of counts of at least one
leaves an ascending list of counts of at least one. -/
theorem AlarmTicks_ok_positive (k k1 : Kernel)
    (hs : k.scheduler.sleepingList.Pairwise (fun a b => a.sleepTime ≤ b.sleepTime))
    (hpos : ∀ e ∈ k.scheduler.sleepingList, 1 ≤ e.sleepTime)
    (h1 : Scheduler.AlarmTicks k = .ok () k1) :
    ∀ e ∈ k1.scheduler.sleepingList, 1 ≤ e.sleepTime := by
  have h2 := AlarmTicks_wake_ok_rest
    (k.scheduler.sleepingList.map SleepingThread.decreaseSleepTime)
    { k with scheduler := { k.scheduler with
        AThreadWakeUp := false
        sleepingList := k.scheduler.sleepingList.map SleepingThread.decreaseSleepTime } }
    k1 rfl h1
  rw [dropWhile_zero_after_decrease _ hs hpos] at h2
  intro e he
  rw [h2] at he
  have := (List.mem_filter.1 he).2
  simp only [decide_eq_true_eq] at this
  omega

/-- Runs whose GoSleep calls all have a positive sleep time keep the
sleeping list ascending, however they end. -/
theorem runSleepOps_sorted_positive (ops : List SleepOp) :
    ∀ k : Kernel, k.scheduler.sleepingList.Pairwise (fun a b => a.sleepTime ≤ b.sleepTime) →
      (∀ e ∈ k.scheduler.sleepingList, 1 ≤ e.sleepTime) →
      (∀ v ∈ ops.filterMap SleepOp.sleepTime?, 0 < v) →
      (runSleepOps k ops).state.scheduler.sleepingList.Pairwise
        (fun a b => a.sleepTime ≤ b.sleepTime) := by
  induction ops with
  | nil => intro k hs _ _; exact hs
  | cons op ops ih =>
    intro k hs hpos hops
    cases op with
    | goSleep t v =>
      have hv : 0 < v := hops v (by simp [SleepOp.sleepTime?])
      have hrest : ∀ w ∈ ops.filterMap SleepOp.sleepTime?, 0 < w := by
        intro w hw; exact hops w (by simp [SleepOp.sleepTime?, hw])
      show (runSleepOps (Scheduler.GoSleep_toSleep k t v).2 ops).state.scheduler.sleepingList.Pairwise _
      refine ih _ ?_ ?_ hrest
      · exact SortedList_Insert_sorted SleepTime_cmp (fun a => a.sleepTime)
          SleepTime_cmp_neg _ _ hs
      · intro e he
        have he2 : e ∈ SortedList_Insert SleepTime_cmp
            ({ thread := t, sleepTime := v } : SleepingThread) k.scheduler.sleepingList := he
        rcases (SortedList_Insert_mem _ _ _ _).1 he2 with rfl | he3
        · show (1 : Int) ≤ v
          omega
        · exact hpos e he3
    | setLevel l =>
      have hrest : ∀ w ∈ ops.filterMap SleepOp.sleepTime?, 0 < w := by
        intro w hw; exact hops w (by simp [SleepOp.sleepTime?, hw])
      show (runSleepOps (k.SetLevel l).2 ops).state.scheduler.sleepingList.Pairwise _
      exact ih _ hs hpos hrest
    | alarmTicks =>
      have hrest : ∀ w ∈ ops.filterMap SleepOp.sleepTime?, 0 < w := by
        intro w hw; exact hops w (by simp [SleepOp.sleepTime?, hw])
      have hmin : ∀ e ∈ k.scheduler.sleepingList, INT_MIN < e.sleepTime := by
        intro e he
        have := hpos e he
        unfold INT_MIN; omega
      have hst := (AlarmTicks_state_sorted k hs hmin).1
      rw [runSleepOps]
      simp only [SleepOp.step]
      cases hat : Scheduler.AlarmTicks k with
      | ok u k1 =>
        rw [hat] at hst
        exact ih k1 hst (AlarmTicks_ok_positive k k1 hs hpos hat) hrest
      | assertFailed k1 => rw [hat] at hst; exact hst
      | badPointer k1 => rw [hat] at hst; exact hst

/-- Runs in which every sleep time handed to GoSleep is at least `INT_MIN`
plus a bound on the number of ticks keep the sleeping list ascending,
however they end: no counter is at `INT_MIN` when it is decremented. -/
theorem runSleepOps_sorted_bounded (B : Nat) (ops : List SleepOp) :
    ∀ k : Kernel, k.scheduler.sleepingList.Pairwise (fun a b => a.sleepTime ≤ b.sleepTime) →
      (∀ e ∈ k.scheduler.sleepingList, INT_MIN + (countTicks ops : Int) ≤ e.sleepTime) →
      countTicks ops ≤ B →
      (∀ v ∈ ops.filterMap SleepOp.sleepTime?, INT_MIN + (B : Int) ≤ v) →
      (runSleepOps k ops).state.scheduler.sleepingList.Pairwise
        (fun a b => a.sleepTime ≤ b.sleepTime) := by
  induction ops with
  | nil => intro k hs _ _ _; exact hs
  | cons op ops ih =>
    intro k hs hlow hB hops
    cases op with
    | goSleep t v =>
      have hv : INT_MIN + (B : Int) ≤ v := hops v (by simp [SleepOp.sleepTime?])
      have hrest : ∀ w ∈ ops.filterMap SleepOp.sleepTime?, INT_MIN + (B : Int) ≤ w := by
        intro w hw; exact hops w (by simp [SleepOp.sleepTime?, hw])
      have hB2 : countTicks ops ≤ B := hB
      show (runSleepOps (Scheduler.GoSleep_toSleep k t v).2 ops).state.scheduler.sleepingList.Pairwise _
      refine ih _ ?_ ?_ hB2 hrest
      · exact SortedList_Insert_sorted SleepTime_cmp (fun a => a.sleepTime)
          SleepTime_cmp_neg _ _ hs
      · intro e he
        have he2 : e ∈ SortedList_Insert SleepTime_cmp
            ({ thread := t, sleepTime := v } : SleepingThread) k.scheduler.sleepingList := he
        rcases (SortedList_Insert_mem _ _ _ _).1 he2 with rfl | he3
        · show INT_MIN + (countTicks ops : Int) ≤ v
          have : (countTicks ops : Int) ≤ (B : Int) := by exact_mod_cast hB2
          omega
        · exact hlow e he3
    | setLevel l =>
      have hrest : ∀ w ∈ ops.filterMap SleepOp.sleepTime?, INT_MIN + (B : Int) ≤ w := by
        intro w hw; exact hops w (by simp [SleepOp.sleepTime?, hw])
      show (runSleepOps (k.SetLevel l).2 ops).state.scheduler.sleepingList.Pairwise _
      exact ih _ hs hlow hB hrest
    | alarmTicks =>
      have hrest : ∀ w ∈ ops.filterMap SleepOp.sleepTime?, INT_MIN + (B : Int) ≤ w := by
        intro w hw; exact hops w (by simp [SleepOp.sleepTime?, hw])
      have hcount : countTicks (SleepOp.alarmTicks :: ops) = countTicks ops + 1 := rfl
      have hlow2 : ∀ e ∈ k.scheduler.sleepingList,
          INT_MIN + (countTicks ops : Int) + 1 ≤ e.sleepTime := by
        intro e he
        have := hlow e he
        rw [hcount] at this
        push_cast at this
        omega
      have hmin : ∀ e ∈ k.scheduler.sleepingList, INT_MIN < e.sleepTime := by
        intro e he
        have := hlow2 e he
        omega
      obtain ⟨hst, hdec⟩ := AlarmTicks_state_sorted k hs hmin
      rw [runSleepOps]
      simp only [SleepOp.step]
      cases hat : Scheduler.AlarmTicks k with
      | ok u k1 =>
        rw [hat] at hst hdec
        refine ih k1 hst ?_ (by rw [hcount] at hB; omega) hrest
        intro e he
        obtain ⟨e0, h0, heq⟩ := hdec e he
        have := hlow2 e0 h0
        rw [heq]; omega
      | assertFailed k1 => rw [hat] at hst; exact hst
      | badPointer k1 => rw [hat] at hst; exact hst

/-- C4, as stated, fails. On the booted kernel GoSleep with INT_MIN ticks,
GoSleep with 5 ticks and one timer tick leave the sleeping list with the
counts 2147483647 and 4 in that order, which is not ascending: the counter
at INT_MIN wrapped around when it was decremented. -/
theorem sleepingList_unsorted_after_wrap :
    (runSleepOps { bootedOff SchedulerType.RR with scheduler := Scheduler.Scheduler SchedulerType.RR }
        [SleepOp.goSleep ⟨1, 0⟩ (-2147483648), SleepOp.goSleep ⟨2, 0⟩ 5,
          SleepOp.alarmTicks]).state.scheduler.sleepingList
      = [⟨⟨1, 0⟩, 2147483647⟩, ⟨⟨2, 0⟩, 4⟩] ∧
    ¬ (runSleepOps { bootedOff SchedulerType.RR with scheduler := Scheduler.Scheduler SchedulerType.RR }
        [SleepOp.goSleep ⟨1, 0⟩ (-2147483648), SleepOp.goSleep ⟨2, 0⟩ 5,
          SleepOp.alarmTicks]).state.scheduler.sleepingList.Pairwise
        (fun a b => a.sleepTime ≤ b.sleepTime) := by
  refine ⟨by decide, ?_⟩
  have h : (runSleepOps
      { bootedOff SchedulerType.RR with scheduler := Scheduler.Scheduler SchedulerType.RR }
      [SleepOp.goSleep ⟨1, 0⟩ (-2147483648), SleepOp.goSleep ⟨2, 0⟩ 5,
        SleepOp.alarmTicks]).state.scheduler.sleepingList
      = [⟨⟨1, 0⟩, 2147483647⟩, ⟨⟨2, 0⟩, 4⟩] := by decide
  rw [h]
  decide

/-- C4, amended. Starting from the empty sleeping list of a freshly
constructed scheduler (any policy, any kernel around it), after every finite
run of GoSleep and AlarmTicks calls, with the interrupt level changing
freely in between and whether or not the run was cut short by an assertion,
the sleeping list is in non-decreasing order of remaining ticks from head to
tail, provided every GoSleep of the run has a sleep time above zero, or
every GoSleep of the run has a sleep time of at least INT_MIN plus the
number of ticks of the run, so that no counter is decremented at INT_MIN. -/
theorem sleepingList_sorted_invariant (k0 : Kernel) (sType : SchedulerType)
    (ops : List SleepOp)
    (h : (∀ v ∈ ops.filterMap SleepOp.sleepTime?, 0 < v) ∨
      (∀ v ∈ ops.filterMap SleepOp.sleepTime?, INT_MIN + (countTicks ops : Int) ≤ v)) :
    (runSleepOps { k0 with scheduler := Scheduler.Scheduler sType }
      ops).state.scheduler.sleepingList.Pairwise (fun a b => a.sleepTime ≤ b.sleepTime) := by
  rcases h with h | h
  · exact runSleepOps_sorted_positive ops _ (by simp [Scheduler.Scheduler])
      (by simp [Scheduler.Scheduler]) h
  · exact runSleepOps_sorted_bounded (countTicks ops) ops _ (by simp [Scheduler.Scheduler])
      (by simp [Scheduler.Scheduler]) (le_refl _) h

/-- C4, amended, witness. Sleepers with 3 and 1 ticks, a tick with
interrupts enabled that is cut short by the assertion of ReadyToRun: the
sleeping list at the abort shows 0 and 2; and a run with sleep times 0 and
-7 and two ticks, within the bound, leaves -9 and -2. -/
theorem sleepingList_sorted_invariant_witness :
    (∀ v ∈ ([SleepOp.goSleep ⟨1, 0⟩ 3, SleepOp.goSleep ⟨2, 0⟩ 1,
        SleepOp.setLevel IntStatus.IntOn, SleepOp.alarmTicks] : List SleepOp).filterMap
        SleepOp.sleepTime?, 0 < v) ∧
    (runSleepOps (bootedOn SchedulerType.RR)
        [SleepOp.goSleep ⟨1, 0⟩ 3, SleepOp.goSleep ⟨2, 0⟩ 1,
          SleepOp.setLevel IntStatus.IntOn, SleepOp.alarmTicks]).state.scheduler.sleepingList
      = [⟨⟨2, 0⟩, 0⟩, ⟨⟨1, 0⟩, 2⟩] ∧
    (runSleepOps { bootedOn SchedulerType.RR with scheduler := Scheduler.Scheduler SchedulerType.RR }
        [SleepOp.goSleep ⟨1, 0⟩ 3, SleepOp.goSleep ⟨2, 0⟩ 1,
          SleepOp.setLevel IntStatus.IntOn, SleepOp.alarmTicks]).state.scheduler.sleepingList.Pairwise
        (fun a b => a.sleepTime ≤ b.sleepTime) ∧
    (runSleepOps (bootedOn SchedulerType.RR)
        [SleepOp.goSleep ⟨1, 0⟩ 0, SleepOp.goSleep ⟨2, 0⟩ (-7), SleepOp.alarmTicks,
          SleepOp.alarmTicks]).state.scheduler.sleepingList
      = [⟨⟨2, 0⟩, -9⟩, ⟨⟨1, 0⟩, -2⟩] ∧
    (runSleepOps { bootedOn SchedulerType.RR with scheduler := Scheduler.Scheduler SchedulerType.RR }
        [SleepOp.goSleep ⟨1, 0⟩ 0, SleepOp.goSleep ⟨2, 0⟩ (-7), SleepOp.alarmTicks,
          SleepOp.alarmTicks]).state.scheduler.sleepingList.Pairwise
        (fun a b => a.sleepTime ≤ b.sleepTime) :=
  ⟨by decide, by decide,
   sleepingList_sorted_invariant (bootedOn SchedulerType.RR) SchedulerType.RR
     [SleepOp.goSleep ⟨1, 0⟩ 3, SleepOp.goSleep ⟨2, 0⟩ 1, SleepOp.setLevel IntStatus.IntOn,
       SleepOp.alarmTicks] (Or.inl (by decide)),
   by decide,
   sleepingList_sorted_invariant (bootedOn SchedulerType.RR) SchedulerType.RR
     [SleepOp.goSleep ⟨1, 0⟩ 0, SleepOp.goSleep ⟨2, 0⟩ (-7), SleepOp.alarmTicks,
       SleepOp.alarmTicks] (Or.inr (by decide))⟩

end Nachos
